import Mathlib

/-!
# qeReadArchive: the `Rad_Control` retrieval engine

A shallow embedding of `qeReadArchiveApp/project/rad_control.cpp`.

* A date-time (`QCaDateTime`) is represented by the instant it denotes, a whole number of
  milliseconds since the epoch.  Zone conversions keep the instant, comparisons compare instants.
* A `double` is represented by the exact rational it denotes.
* A call either returns, or ends the process with `exit (n)`, or converts a `double` that does
  not fit to `int`, which the language leaves undefined: see `Outcome`.
* The archive framework's resampler is a parameter `resample source interval endTime`.
* Members that the constructor leaves uninitialised hold whatever the storage of the object
  held: see `Rad_Control`.
-/

namespace Rad

/-! ## Data model -/

/-- The instant of a date-time, in milliseconds since the epoch. -/
abbrev QCaDateTime := Int

/-- Alarm state of a sample: status and severity codes. -/
structure QCaAlarmInfo where
  status : Int
  severity : Int
deriving DecidableEq, Repr

/-- Modelled from the spec: the framework enumerator QEArchiveInterface::archSevInvalid, the
severity code of the quality "invalid" (the enumeration is not part of the sources). -/
def archSevInvalid : Int := 3

/-- One archived sample. -/
structure QCaDataPoint where
  value : ℚ
  datetime : QCaDateTime
  alarm : QCaAlarmInfo
deriving DecidableEq, Repr

/-- The default-constructed sample: value zero, null date-time (instant 0), no alarm. -/
instance : Inhabited QCaDataPoint := ⟨⟨0, 0, ⟨0, 0⟩⟩⟩

/-- A series of samples (QCaDataPointList). -/
abbrev QCaDataPointList := List QCaDataPoint

/-- The list accessor `value (i)`: the element at `i`, or a default-constructed sample when `i`
is out of range. -/
def QCaDataPointList.value (l : QCaDataPointList) (i : Int) : QCaDataPoint :=
  if 0 ≤ i ∧ i < l.length then l.getD i.toNat default else default

/-- Qt::TimeSpec, as far as the program uses it. -/
inductive TimeSpec where
  | LocalTime
  | UTC
deriving DecidableEq, Repr

/-- QEArchiveInterface::How, as far as the program uses it. -/
inductive How where
  | Raw
  | Linear
deriving DecidableEq, Repr

/-- The states of the state machine. -/
inductive States where
  | setup
  | initialWait
  | waitArchiverReady
  | initialiseRequest
  | sendRequest
  | waitResponse
  | printAll
  | allDone
  | errorExit
deriving DecidableEq, Repr

/-- Size of the channel table. -/
abbrev MaximumPVNames : Nat := 20

/-- Per channel data. -/
structure PVData where
  pvName : String
  isOkayStatus : Bool
  responseCount : Int
  archiveData : QCaDataPointList
deriving DecidableEq, Repr

/-- The member variables of `Rad_Control` that the engine reads and writes. -/
structure RadControl where
  pvDataList : Fin MaximumPVNames → PVData
  numberPVNames : Int
  timeZoneSpec : TimeSpec
  how : How
  useFixedTime : Bool
  fixedTime : ℚ
  outputFile : String
  startTime : QCaDateTime
  nextTime : QCaDateTime
  endTime : QCaDateTime
  state : States
  pvIndex : Int
  timeout : Int

/-- How a call ends: it returns `a`, it ends the process with an exit code, or its behaviour is
undefined (a `double` outside the range of `int` converted to `int`). -/
inductive Outcome (α : Type) where
  | ok (a : α)
  | exit (code : Int)
  | undefined

/-- Sequencing of calls. -/
def Outcome.bind {α β : Type} (r : Outcome α) (f : α → Outcome β) : Outcome β :=
  match r with
  | Outcome.ok a => f a
  | Outcome.exit code => Outcome.exit code
  | Outcome.undefined => Outcome.undefined

/-- The resampler of the archive framework: `resample source interval endTime` is the content of
the target list after `target.resample (source, interval, endTime)`. -/
abbrev Resampler := QCaDataPointList → ℚ → QCaDateTime → QCaDataPointList

/-! ## Time zone -/

/-- QDateTime::toUTC: same instant. -/
def toUTC (dateTime : QCaDateTime) : QCaDateTime := dateTime

/-- QDateTime::toLocalTime: same instant. -/
def toLocalTime (dateTime : QCaDateTime) : QCaDateTime := dateTime

/-- Rad_Control::toRadTime. -/
def toRadTime (timeZoneSpec : TimeSpec) (dateTime : QCaDateTime) : QCaDateTime :=
  if timeZoneSpec = TimeSpec.UTC then toUTC dateTime else toLocalTime dateTime

/-! ## Folding a page into a channel (setArchiveData, first half) -/

/-- The working copy of a page: every sample with its time converted to the run's zone. -/
def workingCopy (timeZoneSpec : TimeSpec) (archiveDataIn : QCaDataPointList) : QCaDataPointList :=
  archiveDataIn.map (fun item => { item with datetime := toRadTime timeZoneSpec item.datetime })

/-- The overlap loop: while the working list is not empty and its first sample is not after
`lastTime`, remove the first sample. -/
def removeOverlap (lastTime : QCaDateTime) : QCaDataPointList → QCaDataPointList
  | [] => []
  | p :: rest => if p.datetime ≤ lastTime then removeOverlap lastTime rest else p :: rest

/-- The "subsequent update" branch: append the working list, less its overlap with the last
stored sample, to the stored series. -/
def appendPage (archiveData working : QCaDataPointList) : QCaDataPointList :=
  let number : Int := archiveData.length
  let lastTime := (archiveData.value (number - 1)).datetime
  archiveData ++ removeOverlap lastTime working

/-- The first statement of the processing part: count the response. -/
def countResponse (pvData : PVData) : PVData :=
  { pvData with responseCount := pvData.responseCount + 1 }

/-- The successful branch up to the merge: mark the channel okay, then copy the page when it is
the first response and append it without overlap otherwise. `pvData` already has its response
counter incremented. -/
def mergePage (pvData : PVData) (working : QCaDataPointList) : PVData :=
  let pvData := { pvData with isOkayStatus := true }
  if pvData.responseCount = 1 then
    { pvData with archiveData := working }
  else
    { pvData with archiveData := appendPage pvData.archiveData working }

/-! ## Post processing -/

/-- The trimming loop of the non-fixed branch; `fuel` bounds the number of iterations. -/
def trimLoop (endTime : QCaDateTime) : Nat → QCaDataPointList → QCaDataPointList
  | 0, archiveData => archiveData
  | fuel + 1, archiveData =>
    if archiveData.length ≤ 2 then archiveData
    else
      let number : Int := archiveData.length
      let penUltimate := (archiveData.value (number - 2)).datetime
      if penUltimate < endTime then archiveData
      else trimLoop endTime fuel archiveData.dropLast

/-- The non-fixed branch of postProcess: every iteration removes one sample, so the number of
samples is enough fuel. -/
def trimBeyondEnd (endTime : QCaDateTime) (archiveData : QCaDataPointList) : QCaDataPointList :=
  trimLoop endTime archiveData.length archiveData

/-- Rad_Control::postProcess, on the channel it is given. -/
def postProcess (resample : Resampler) (s : RadControl) (pvData : PVData) : PVData :=
  if s.useFixedTime then
    if s.numberPVNames = 1 then
      let working := pvData.archiveData
      { pvData with archiveData := resample working s.fixedTime s.endTime }
    else
      let nullPoint : QCaDataPoint :=
        { alarm := ⟨0, archSevInvalid⟩, datetime := s.startTime, value := 0 }
      let working := [nullPoint] ++ pvData.archiveData
      { pvData with archiveData := resample working s.fixedTime s.endTime }
  else
    { pvData with archiveData := trimBeyondEnd s.endTime pvData.archiveData }

/-! ## setArchiveData -/

/-- The last lines of setArchiveData: the next state. -/
def nextRequestState (s : RadControl) : RadControl :=
  if s.pvIndex < s.numberPVNames then { s with state := States.sendRequest }
  else { s with state := States.printAll }

/-- The body of setArchiveData once the channel index `i` has passed the range check. -/
def receivePage (resample : Resampler) (s : RadControl) (i : Fin MaximumPVNames) (okay : Bool)
    (archiveDataIn : QCaDataPointList) : RadControl :=
  let number : Int := archiveDataIn.length
  let working := workingCopy s.timeZoneSpec archiveDataIn
  let pvData := countResponse (s.pvDataList i)
  if okay ∧ number > 0 then
    let pvData := mergePage pvData working
    let number : Int := pvData.archiveData.length
    let lastTime := (pvData.archiveData.value (number - 1)).datetime
    if s.how = How.Raw ∧ lastTime < s.endTime ∧ lastTime > s.nextTime then
      nextRequestState
        { s with pvDataList := Function.update s.pvDataList i pvData, nextTime := lastTime }
    else
      nextRequestState
        { s with pvDataList := Function.update s.pvDataList i (postProcess resample s pvData),
                 pvIndex := s.pvIndex + 1, nextTime := s.startTime }
  else
    nextRequestState
      { s with pvDataList := Function.update s.pvDataList i (postProcess resample s pvData),
               pvIndex := s.pvIndex + 1, nextTime := s.startTime }

/-- Rad_Control::setArchiveData: the slot that receives one response. A channel index outside
the table ends the process with exit code 1. -/
def setArchiveData (resample : Resampler) (s : RadControl) (okay : Bool)
    (archiveDataIn : QCaDataPointList) : Outcome RadControl :=
  if h : s.pvIndex < 0 ∨ s.pvIndex ≥ (MaximumPVNames : Int) then
    Outcome.exit 1
  else
    Outcome.ok (receivePage resample s ⟨s.pvIndex.toNat, by
      have h1 : 0 ≤ s.pvIndex := by omega
      have h2 : s.pvIndex < (MaximumPVNames : Int) := by omega
      omega⟩ okay archiveDataIn)

/-- The number of responses of the stream `responses`, read from position `k` on, that
setArchiveData consumes from state `s` until it advances pvIndex, counted from the start of the
stream; none when `fuel` responses were not enough or the process ended. Every response that
leaves pvIndex unchanged makes the state machine send one more request for the channel. -/
def pagesUntilAdvance (resample : Resampler) (responses : Nat → Bool × QCaDataPointList) :
    Nat → Nat → RadControl → Option Nat
  | 0, _, _ => none
  | fuel + 1, k, s =>
    match setArchiveData resample s (responses k).1 (responses k).2 with
    | Outcome.ok s2 =>
      if s2.pvIndex = s.pvIndex then pagesUntilAdvance resample responses fuel (k + 1) s2
      else some (k + 1)
    | _ => none

/-! ## Timeouts -/

/-- The period of the tick timer in milliseconds, as started by the constructor. -/
def tickInterval : ℚ := 100

/-- The conversion `(int) x`: `x` with its fraction dropped, when that fits in 32 bits. -/
def castInt (x : ℚ) : Option Int :=
  let t : Int := if 0 ≤ x then ⌊x⌋ else ⌈x⌉
  if -2147483648 ≤ t ∧ t ≤ 2147483647 then some t else none

/-- Rad_Control::setTimeout. -/
def setTimeout (s : RadControl) (delay : ℚ) : Outcome RadControl :=
  let n : ℚ := tickInterval
  match castInt ((1000 * delay + (n - 1)) / n) with
  | some ticks => Outcome.ok { s with timeout := if ticks < 1 then 1 else ticks }
  | none => Outcome.undefined

/-! ## readArchive -/

/-- QCaDateTime::secondsTo: the seconds from `t0` to `t1`. -/
def secondsTo (t0 t1 : QCaDateTime) : ℚ := ((t1 - t0 : Int) : ℚ) / 1000

/-- QDateTime::addSecs. -/
def addSecs (t : QCaDateTime) (secs : Int) : QCaDateTime := t + 1000 * secs

/-- The request handed to the archive access object. -/
structure ArchiveRequest where
  pvName : String
  t0 : QCaDateTime
  t1 : QCaDateTime
  count : Int
  how : How
deriving DecidableEq, Repr

/-- Rad_Control::readArchive: the request it issues. -/
def readArchive (s : RadControl) : Outcome ArchiveRequest :=
  if h : s.pvIndex < 0 ∨ s.pvIndex ≥ (MaximumPVNames : Int) then
    Outcome.exit 1
  else
    let pvData := s.pvDataList ⟨s.pvIndex.toNat, by
      have h1 : 0 ≤ s.pvIndex := by omega
      have h2 : s.pvIndex < (MaximumPVNames : Int) := by omega
      omega⟩
    let interval : ℚ := secondsTo s.nextTime s.endTime
    let interval : ℚ := max (interval * (105 / 100)) 60
    match castInt interval with
    | some secs =>
      let adjustedEndTime := addSecs s.nextTime secs
      Outcome.ok { pvName := pvData.pvName, t0 := toUTC s.nextTime, t1 := toUTC adjustedEndTime,
                   count := 20000, how := s.how }
    | none => Outcome.undefined

/-! ## initialise -/

/-- The command line as QEOptions presents it. `fixedValue` is the number given with the
option "fixed", none when there is none or it cannot be read as a number. -/
structure QEOptions where
  help : Bool
  utc : Bool
  raw : Bool
  fixedSpecified : Bool
  fixedValue : Option ℚ
  parameters : List String

/-- QEOptions::getParameter: the positional parameter `n`, empty when absent. -/
def QEOptions.getParameter (options : QEOptions) (n : Nat) : String :=
  options.parameters.getD n ""

/-- QEOptions::getFloat for the option "fixed". -/
def QEOptions.getFloat (options : QEOptions) (defaultValue : ℚ) : ℚ :=
  options.fixedValue.getD defaultValue

/-- What the program takes from its surroundings: the command line, the date-time parser
(QCaDateTime::fromString, none for an invalid date-time), QDateTime::setTimeSpec, whether the
archive interface is ready, and whether the output file can be opened. -/
structure Environment where
  options : QEOptions
  fromString : String → String → Option QCaDateTime
  setTimeSpec : QCaDateTime → TimeSpec → QCaDateTime
  isReady : Bool
  openOkay : Bool

/-- The formats tried by Rad_Control::value. -/
def formats : List String :=
  ["dd/MMM/yyyy HH:mm:ss", "dd/MM/yyyy HH:mm:ss", "dd/MMM/yyyy HH:mm", "dd/MM/yyyy HH:mm",
   "dd/MMM/yyyy HH", "dd/MM/yyyy HH", "dd/MMM/yyyy", "dd/MM/yyyy"]

/-- The loop of Rad_Control::value over the formats still to try: the date-time read and
whether one format fitted. `result` is the outcome of the last attempt. -/
def valueLoop (env : Environment) (timeImage : String) :
    List String → QCaDateTime → QCaDateTime × Bool
  | [], result => (result, false)
  | format :: rest, _ =>
    match env.fromString timeImage format with
    | some t => (t, true)
    | none => valueLoop env timeImage rest 0

/-- Rad_Control::value. -/
def value (env : Environment) (timeZoneSpec : TimeSpec) (timeImage : String) :
    QCaDateTime × Bool :=
  let r := valueLoop env timeImage formats 0
  (env.setTimeSpec r.1 timeZoneSpec, r.2)

/-- Rad_Control::usage. -/
def usage (s : RadControl) : RadControl := { s with state := States.errorExit }

/-- The loop of initialise over the channel names after the first, from index `j` on; `fuel`
bounds the number of iterations. -/
def pvNameLoop (options : QEOptions) : Nat → Nat → RadControl → RadControl
  | 0, _, s => s
  | fuel + 1, j, s =>
    if h : j < MaximumPVNames then
      let pv := options.getParameter (j + 3)
      if pv.isEmpty then s
      else
        let s : RadControl :=
          if !s.useFixedTime then { s with useFixedTime := true, fixedTime := 1 } else s
        let s : RadControl :=
          { s with
            pvDataList := Function.update s.pvDataList ⟨j, h⟩
              { pvName := pv, isOkayStatus := false, responseCount := 0, archiveData := [] },
            numberPVNames := (j : Int) + 1 }
        pvNameLoop options fuel (j + 1) s
    else s

/-- The part of initialise that reads the flags "utc" and "raw" and clears useFixedTime. -/
def initialiseFlags (options : QEOptions) (s : RadControl) : RadControl :=
  { s with
    timeZoneSpec := if options.utc then TimeSpec.UTC else TimeSpec.LocalTime,
    how := if options.raw then How.Raw else How.Linear,
    useFixedTime := false }

/-- The part of initialise that reads the option "fixed". The flag is false when initialise
returns at this point: the value had an invalid format. -/
def initialiseFixed (options : QEOptions) (s : RadControl) : RadControl × Bool :=
  if options.fixedSpecified then
    let fixedTime : ℚ := options.getFloat (-99)
    if fixedTime = -99 then
      ({ s with fixedTime := fixedTime, state := States.errorExit }, false)
    else
      ({ s with useFixedTime := true,
                fixedTime := if fixedTime < 1 / 4 then 1 / 4 else fixedTime }, true)
  else (s, true)

/-- The part of initialise that reads the channel names and, with at least one name, enters
initialWait. -/
def initialiseChannels (options : QEOptions) (s : RadControl) : RadControl :=
  let pv := options.getParameter 3
  if pv.isEmpty then usage s
  else
    let s : RadControl :=
      { s with
        pvDataList := Function.update s.pvDataList 0 { s.pvDataList 0 with pvName := pv },
        numberPVNames := 1 }
    let s := pvNameLoop options MaximumPVNames 1 s
    { s with state := States.initialWait }

/-- The part of initialise that reads the output file and the two times. -/
def initialiseParameters (env : Environment) (s : RadControl) : RadControl :=
  let s : RadControl := { s with outputFile := env.options.getParameter 0 }
  if s.outputFile.isEmpty then usage s
  else
    let start := value env s.timeZoneSpec (env.options.getParameter 1)
    let s : RadControl := { s with startTime := start.1 }
    if !start.2 then usage s
    else
      let finish := value env s.timeZoneSpec (env.options.getParameter 2)
      let s : RadControl := { s with endTime := finish.1 }
      if !finish.2 then usage s
      else initialiseChannels env.options s

/-- Rad_Control::initialise. -/
def initialise (env : Environment) (s : RadControl) : RadControl :=
  let s : RadControl := { s with state := States.errorExit }
  if env.options.help then { s with state := States.allDone }
  else
    let fixed := initialiseFixed env.options (initialiseFlags env.options s)
    if fixed.2 then initialiseParameters env fixed.1 else fixed.1

/-! ## Output -/

/-- A value field of a row of the table: the literal "nil" or a formatted number. -/
inductive Field where
  | nil
  | number (v : ℚ)
deriving DecidableEq, Repr

/-- One row written by putDatumSet. -/
structure Row where
  index : Int
  time : QCaDateTime
  relative : ℚ
  fields : List Field
deriving DecidableEq, Repr

/-- The channel indices below numberPVNames, in order. -/
def pvIndices (s : RadControl) : List (Fin MaximumPVNames) :=
  (List.finRange MaximumPVNames).take s.numberPVNames.toNat

/-- Rad_Control::putDatumSet: the row for the set of points `p`. `isDisplayable` is
QCaDataPoint::isDisplayable of the framework. -/
def putDatumSet (isDisplayable : QCaDataPoint → Bool) (s : RadControl)
    (p : Fin MaximumPVNames → QCaDataPoint) (j : Int) (firstTime : QCaDateTime) : Row :=
  { index := j
    time := (p 0).datetime
    relative := secondsTo firstTime (p 0).datetime
    fields := (pvIndices s).map
      (fun n => if isDisplayable (p n) then Field.number (p n).value else Field.nil) }

/-- The null point of putArchiveData: default-constructed, with severity invalid. -/
def outputNullPoint : QCaDataPoint := { (default : QCaDataPoint) with alarm := ⟨0, archSevInvalid⟩ }

/-- The number of rows of the table of several channels: the largest sample count of the
channels with okay status. -/
def numberOfRows (s : RadControl) : Int :=
  (pvIndices s).foldl
    (fun number pv =>
      if (s.pvDataList pv).isOkayStatus then max number ((s.pvDataList pv).archiveData.length : Int)
      else number) 0

/-- The set of points of row `j` of the table of several channels. -/
def pointSet (s : RadControl) (j : Int) : Fin MaximumPVNames → QCaDataPoint := fun pv =>
  if (s.pvDataList pv).isOkayStatus then
    if j < ((s.pvDataList pv).archiveData.length : Int) then (s.pvDataList pv).archiveData.value j
    else outputNullPoint
  else outputNullPoint

/-- The data rows written by the branch of putArchiveData for several channels. -/
def putArchiveDataRows (isDisplayable : QCaDataPoint → Bool) (s : RadControl) : List Row :=
  (List.range (numberOfRows s).toNat).map
    (fun j => putDatumSet isDisplayable s (pointSet s (j : Int)) (j : Int) s.startTime)

/-- Rad_Control::putArchiveData, as far as the state goes: a file that cannot be opened sets
errorExit. -/
def putArchiveData (env : Environment) (s : RadControl) : RadControl :=
  if !env.openOkay then { s with state := States.errorExit } else s

/-- What putArchiveData writes: nothing when the file cannot be opened, the series of channel 0
(handed to the framework's toStream when it is not empty) for one channel, and the rows of the
table otherwise. -/
inductive Output where
  | openFailed
  | oneChannel (archiveData : QCaDataPointList)
  | severalChannels (rows : List Row)

/-- Rad_Control::putArchiveData, as far as the data written goes. -/
def putArchiveDataOutput (env : Environment) (isDisplayable : QCaDataPoint → Bool)
    (s : RadControl) : Output :=
  if !env.openOkay then Output.openFailed
  else if s.numberPVNames = 1 then Output.oneChannel (s.pvDataList 0).archiveData
  else Output.severalChannels (putArchiveDataRows isDisplayable s)

/-! ## The state machine -/

/-- Rad_Control::tickTimeout: one tick of the timer. -/
def tickTimeout (env : Environment) (s : RadControl) : Outcome RadControl :=
  match s.state with
  | States.setup => setTimeout (initialise env s) 20
  | States.initialWait =>
    let s : RadControl := { s with timeout := s.timeout - 1 }
    if s.timeout ≤ 0 then
      (setTimeout s 60).bind (fun s => Outcome.ok { s with state := States.waitArchiverReady })
    else Outcome.ok s
  | States.waitArchiverReady =>
    if env.isReady then Outcome.ok { s with state := States.initialiseRequest }
    else
      let s : RadControl := { s with timeout := s.timeout - 1 }
      if s.timeout ≤ 0 then Outcome.exit 1 else Outcome.ok s
  | States.initialiseRequest =>
    Outcome.ok { s with pvIndex := 0, nextTime := s.startTime, state := States.sendRequest }
  | States.sendRequest =>
    (readArchive s).bind (fun _ => setTimeout { s with state := States.waitResponse } 60)
  | States.waitResponse =>
    let s : RadControl := { s with timeout := s.timeout - 1 }
    if s.timeout ≤ 0 then Outcome.exit 1 else Outcome.ok s
  | States.printAll => Outcome.ok { putArchiveData env s with state := States.allDone }
  | States.allDone => Outcome.exit 0
  | States.errorExit => Outcome.exit 1

/-- Rad_Control::Rad_Control: the constructor. It sets timeZoneSpec, state, timeout,
numberPVNames and pvIndex; strings, lists and date-times are default-constructed (empty, null);
every other member keeps what the storage of the object held, which is `memory`: the status
and the response counter of every channel, how, useFixedTime and fixedTime. -/
def Rad_Control (memory : RadControl) : RadControl :=
  { memory with
    pvDataList := fun i => { memory.pvDataList i with pvName := "", archiveData := [] }
    outputFile := ""
    startTime := 0
    nextTime := 0
    endTime := 0
    timeZoneSpec := TimeSpec.LocalTime
    state := States.setup
    timeout := 0
    numberPVNames := 0
    pvIndex := 0 }

/-- The states the machine can be in after `initial`: it moves by ticks of the timer, in
whatever surroundings, and by responses, which are delivered only in waitResponse. -/
inductive Reachable (resample : Resampler) (initial : RadControl) : RadControl → Prop where
  | start : Reachable resample initial initial
  | tick (env : Environment) (s s2 : RadControl) :
      Reachable resample initial s → tickTimeout env s = Outcome.ok s2 →
      Reachable resample initial s2
  | response (okay : Bool) (page : QCaDataPointList) (s s2 : RadControl) :
      Reachable resample initial s → s.state = States.waitResponse →
      setArchiveData resample s okay page = Outcome.ok s2 →
      Reachable resample initial s2

/-- A channel as setup should leave it: not okay, no response counted, no sample. -/
def Fresh (pvData : PVData) : Prop :=
  pvData.isOkayStatus = false ∧ pvData.responseCount = 0 ∧ pvData.archiveData = []

/-- The response counter of the channel tells whether its series is empty: no response and no
sample, or at least one response and at least one sample. -/
def CounterMatches (pvData : PVData) : Prop :=
  (pvData.responseCount = 0 ∧ pvData.archiveData = [])
  ∨ (1 ≤ pvData.responseCount ∧ pvData.archiveData ≠ [])

/-- The invariant of the runs after a setup that left every configured channel with counter 0
and no sample: before the first request all configured channels are so; while requests are made
the current channel is a configured one whose counter matches its series, and the channels
after it are untouched. -/
def RunInvariant (s : RadControl) : Prop :=
  1 ≤ s.numberPVNames ∧ s.numberPVNames ≤ (MaximumPVNames : Int)
  ∧ s.state ≠ States.setup
  ∧ ((s.state = States.initialWait ∨ s.state = States.waitArchiverReady
        ∨ s.state = States.initialiseRequest) →
      ∀ i : Fin MaximumPVNames, (i.val : Int) < s.numberPVNames →
        (s.pvDataList i).responseCount = 0 ∧ (s.pvDataList i).archiveData = [])
  ∧ ((s.state = States.sendRequest ∨ s.state = States.waitResponse) →
      0 ≤ s.pvIndex ∧ s.pvIndex < s.numberPVNames
      ∧ (∀ i : Fin MaximumPVNames, s.pvIndex < (i.val : Int) → (i.val : Int) < s.numberPVNames →
          (s.pvDataList i).responseCount = 0 ∧ (s.pvDataList i).archiveData = [])
      ∧ (∀ i : Fin MaximumPVNames, (i.val : Int) = s.pvIndex → CounterMatches (s.pvDataList i)))

/-! ## The merge contract in the words of the specification -/

/-- The merge of the specification: `incoming` verbatim when `existing` is empty, and otherwise
`existing` followed by `incoming` less its leading samples that are not after the last sample of
`existing`. -/
def specMerge (existing incoming : QCaDataPointList) : QCaDataPointList :=
  match existing.getLast? with
  | none => incoming
  | some last => existing ++ incoming.dropWhile (fun p => decide (p.datetime ≤ last.datetime))

/-- An instant as an exact number of seconds. -/
def seconds (t : QCaDateTime) : ℚ := (t : ℚ) / 1000

/-- The end of the request window in the words of the specification, in seconds:
`max (cursor + (globalEnd - cursor) * 1.05, cursor + 60 s)`. -/
def specAdjustedEnd (cursor endTime : ℚ) : ℚ :=
  max (cursor + (endTime - cursor) * (105 / 100)) (cursor + 60)

/-- The tick count in the words of the specification: `ceil (seconds * 1000 / tickPeriodMs)`. -/
def specTicks (delay n : ℚ) : Int := ⌈delay * 1000 / n⌉

/-- A resampler whose grid starts at the first timestamp of its input: the first sample it
returns, if any, has the time of the first sample of the source. -/
def GridStartsAtFirst (resample : Resampler) : Prop :=
  ∀ (source : QCaDataPointList) (interval : ℚ) (endTime : QCaDateTime),
    ∀ q ∈ (resample source interval endTime).head?, ∀ p ∈ source.head?,
      q.datetime = p.datetime

/-- Every sample of the series is strictly earlier than the sample that follows it. -/
def StrictlyIncreasing : QCaDataPointList → Prop
  | [] => True
  | [_] => True
  | a :: b :: rest => a.datetime < b.datetime ∧ StrictlyIncreasing (b :: rest)

/-- Whether a series is strictly increasing can be computed. -/
def StrictlyIncreasing.dec : (l : QCaDataPointList) → Decidable (StrictlyIncreasing l)
  | [] => isTrue trivial
  | [_] => isTrue trivial
  | a :: b :: rest =>
    @instDecidableAnd (a.datetime < b.datetime) (StrictlyIncreasing (b :: rest)) inferInstance
      (StrictlyIncreasing.dec (b :: rest))

instance (l : QCaDataPointList) : Decidable (StrictlyIncreasing l) := StrictlyIncreasing.dec l

/-- A time-ordered series: timestamps never decrease. -/
def TimeOrdered (l : QCaDataPointList) : Prop :=
  List.Pairwise (fun a b : QCaDataPoint => a.datetime ≤ b.datetime) l

instance (l : QCaDataPointList) : Decidable (TimeOrdered l) :=
  inferInstanceAs (Decidable (List.Pairwise _ l))

/-! ## Example data -/

/-- A sample with value zero and no alarm at the given instant. -/
def pt (t : QCaDateTime) : QCaDataPoint := ⟨0, t, ⟨0, 0⟩⟩

/-- A channel with the given counter and series. -/
def exChannel (okay : Bool) (responseCount : Int) (archiveData : QCaDataPointList) : PVData :=
  ⟨"PV", okay, responseCount, archiveData⟩

/-- A raw-mode state without fixed sampling over the window from 0 to 100, waiting for a
response of channel `pvIndex`; every channel of the table is `pvData`. -/
def exState (pvData : PVData) (numberPVNames pvIndex : Int) (nextTime : QCaDateTime) :
    RadControl :=
  { pvDataList := fun _ => pvData, numberPVNames := numberPVNames,
    timeZoneSpec := TimeSpec.UTC, how := How.Raw, useFixedTime := false, fixedTime := 0,
    outputFile := "out.txt", startTime := 0, nextTime := nextTime, endTime := 100,
    state := States.waitResponse, pvIndex := pvIndex, timeout := 600 }

/-- A state about to request channel 0 with the cursor at 0 and the end of the window at
`endTime`. -/
def exRequestState (endTime : QCaDateTime) : RadControl :=
  { exState (exChannel false 0 []) 1 0 0 with endTime := endTime, state := States.sendRequest }

/-- A command line for the examples: fixed interval 0.1 s, an output file, two times and two
channel names; every time image can be read, the archive is ready, the file can be opened. -/
def exEnvironment : Environment :=
  { options :=
      { help := false, utc := true, raw := true, fixedSpecified := true,
        fixedValue := some (1 / 10),
        parameters := ["out.txt", "16/06/2020 16:30:00", "17/06/2020 16:30:00", "PV1", "PV2"] },
    fromString := fun _ _ => some 0,
    setTimeSpec := fun t _ => t,
    isReady := true,
    openOkay := true }

/-- A state in setup for the examples: no channel yet, the other members taken from the
example state. -/
def exSetup : RadControl :=
  { exState (exChannel false 0 []) 0 0 0 with state := States.setup, timeout := 0 }

/-- A command line for the examples with one channel name and no fixed interval. -/
def exOneChannel : Environment :=
  { options :=
      { help := false, utc := true, raw := true, fixedSpecified := false, fixedValue := none,
        parameters := ["out.txt", "16/06/2020 16:30:00", "17/06/2020 16:30:00", "PV1"] },
    fromString := fun _ _ => some 0,
    setTimeSpec := fun t _ => t,
    isReady := true,
    openOkay := true }

/-- Storage of the object in which the status of every channel reads true and the response
counter of every channel reads 7. -/
def exMemory : RadControl := exState (exChannel true 7 []) 0 0 0

/-- The state after setup with the one-channel command line on the storage `exMemory`. -/
def exStaleStart : RadControl := initialise exOneChannel (Rad_Control exMemory)

/-- The state of that run when the first request has been sent. -/
def exStaleWait : RadControl :=
  { exStaleStart with
    timeout := 600, pvIndex := 0, nextTime := exStaleStart.startTime,
    state := States.waitResponse }

/-- A resampler for the examples: it returns its source. -/
def exResample : Resampler := fun source _ _ => source

/-- A displayability test for the examples: every severity but invalid can be displayed. -/
def exDisplayable (p : QCaDataPoint) : Bool := decide (p.alarm.severity ≠ archSevInvalid)

/-- A raw-mode state of a run of two channels resampled at 1 s over the window from 0 to 100,
waiting for a response of channel 1, no response received so far. -/
def exTwoChannels : RadControl :=
  { pvDataList := fun _ => exChannel false 0 [], numberPVNames := 2,
    timeZoneSpec := TimeSpec.UTC, how := How.Raw, useFixedTime := true, fixedTime := 1,
    outputFile := "out.txt", startTime := 0, nextTime := 0, endTime := 100,
    state := States.waitResponse, pvIndex := 1, timeout := 600 }

/-- The state a call returned, none when the process ended. -/
def Outcome.toOption {α : Type} (r : Outcome α) : Option α :=
  match r with
  | Outcome.ok a => some a
  | _ => none

/-- The series stored for channel `i` by a call that returned, none when the process exited. -/
def storedSeries (r : Outcome RadControl) (i : Fin MaximumPVNames) : Option QCaDataPointList :=
  match r with
  | Outcome.ok s => some (s.pvDataList i).archiveData
  | _ => none

/-! ## Basic facts -/

theorem workingCopy_eq (z : TimeSpec) (l : QCaDataPointList) : workingCopy z l = l := by
  unfold workingCopy
  have hid : (fun item : QCaDataPoint =>
      { item with datetime := toRadTime z item.datetime }) = id := by
    funext item
    simp [toRadTime, toUTC, toLocalTime]
  rw [hid, List.map_id]

theorem removeOverlap_eq_dropWhile (t : QCaDateTime) (l : QCaDataPointList) :
    removeOverlap t l = l.dropWhile (fun p => decide (p.datetime ≤ t)) := by
  induction l with
  | nil => rfl
  | cons p rest ih =>
    by_cases h : p.datetime ≤ t
    · simp [removeOverlap, List.dropWhile_cons, h, ih]
    · simp [removeOverlap, List.dropWhile_cons, h]

theorem value_last (l : QCaDataPointList) (h : l ≠ []) :
    l.value ((l.length : Int) - 1) = l.getLast h := by
  have hpos : 0 < l.length := List.length_pos.mpr h
  have hcond : 0 ≤ (l.length : Int) - 1 ∧ (l.length : Int) - 1 < l.length := by omega
  have htoNat : ((l.length : Int) - 1).toNat = l.length - 1 := by omega
  unfold QCaDataPointList.value
  rw [if_pos hcond, htoNat, List.getLast_eq_getElem]
  have hlt : l.length - 1 < l.length := by omega
  simp [List.getD_eq_getElem?_getD, List.getElem?_eq_getElem hlt]

theorem value_nil (i : Int) : QCaDataPointList.value [] i = default := by
  unfold QCaDataPointList.value
  split <;> rfl

theorem setArchiveData_eq (resample : Resampler) (s : RadControl) (i : Fin MaximumPVNames)
    (hi : s.pvIndex = (i.val : Int)) (okay : Bool) (archiveDataIn : QCaDataPointList) :
    setArchiveData resample s okay archiveDataIn
      = Outcome.ok (receivePage resample s i okay archiveDataIn) := by
  have hlt : i.val < MaximumPVNames := i.isLt
  have hguard : ¬ (s.pvIndex < 0 ∨ s.pvIndex ≥ (MaximumPVNames : Int)) := by omega
  have hidx : s.pvIndex.toNat = i.val := by omega
  unfold setArchiveData
  rw [dif_neg hguard]
  congr 2
  exact Fin.ext hidx

theorem postProcess_archiveData_congr (resample : Resampler) (s : RadControl) (p q : PVData)
    (h : p.archiveData = q.archiveData) :
    (postProcess resample s p).archiveData = (postProcess resample s q).archiveData := by
  unfold postProcess
  split
  · split <;> simp [h]
  · simp [h]

/-- Under agreement of the response counter with emptiness, the code merges as the
specification says. -/
theorem mergePage_eq_specMerge (pvData : PVData) (working : QCaDataPointList)
    (hcount : pvData.responseCount = 0 ↔ pvData.archiveData = []) :
    (mergePage (countResponse pvData) working).archiveData
      = specMerge pvData.archiveData working := by
  by_cases hempty : pvData.archiveData = []
  · have h0 : pvData.responseCount = 0 := hcount.mpr hempty
    simp [mergePage, countResponse, h0, specMerge, hempty]
  · have h0 : pvData.responseCount ≠ 0 := fun h => hempty (hcount.mp h)
    have h1 : ¬ (pvData.responseCount + 1 = 1) := by omega
    have hlast : pvData.archiveData.getLast? = some (pvData.archiveData.getLast hempty) :=
      List.getLast?_eq_getLast _ hempty
    simp only [mergePage, countResponse, h1, if_false, specMerge, hlast, appendPage,
      value_last _ hempty, removeOverlap_eq_dropWhile]

@[simp] theorem nextRequestState_pvDataList (s : RadControl) :
    (nextRequestState s).pvDataList = s.pvDataList := by
  unfold nextRequestState; split <;> rfl

@[simp] theorem nextRequestState_pvIndex (s : RadControl) :
    (nextRequestState s).pvIndex = s.pvIndex := by
  unfold nextRequestState; split <;> rfl

@[simp] theorem nextRequestState_nextTime (s : RadControl) :
    (nextRequestState s).nextTime = s.nextTime := by
  unfold nextRequestState; split <;> rfl

@[simp] theorem nextRequestState_numberPVNames (s : RadControl) :
    (nextRequestState s).numberPVNames = s.numberPVNames := by
  unfold nextRequestState; split <;> rfl

theorem length_pos_cast (l : QCaDataPointList) (h : l ≠ []) : ((l.length : Int) > 0) := by
  have hpos : 0 < l.length := List.length_pos.mpr h
  omega

/-! ## Ordered series -/

theorem strictlyIncreasing_iff_pairwise (l : QCaDataPointList) :
    StrictlyIncreasing l ↔ l.Pairwise (fun a b : QCaDataPoint => a.datetime < b.datetime) := by
  induction l with
  | nil => simp [StrictlyIncreasing]
  | cons a tl ih =>
    cases tl with
    | nil => simp [StrictlyIncreasing]
    | cons b rest =>
      rw [StrictlyIncreasing, ih]
      constructor
      · rintro ⟨hab, hpw⟩
        refine List.pairwise_cons.mpr ⟨?_, hpw⟩
        intro x hx
        rcases List.mem_cons.mp hx with rfl | hx
        · exact hab
        · exact lt_trans hab ((List.pairwise_cons.mp hpw).1 x hx)
      · intro hpw
        have h := List.pairwise_cons.mp hpw
        exact ⟨h.1 b (List.mem_cons_self _ _), h.2⟩

theorem pairwise_lt_le_getLast (l : QCaDataPointList)
    (h : l.Pairwise (fun a b : QCaDataPoint => a.datetime ≤ b.datetime)) (hne : l ≠ []) :
    ∀ a ∈ l, a.datetime ≤ (l.getLast hne).datetime := by
  induction l with
  | nil => exact absurd rfl hne
  | cons x tl ih =>
    intro a ha
    cases tl with
    | nil =>
      simp only [List.mem_singleton] at ha
      simp [ha]
    | cons y rest =>
      rw [List.getLast_cons (List.cons_ne_nil y rest)]
      rw [List.pairwise_cons] at h
      rcases List.mem_cons.mp ha with rfl | ha
      · exact h.1 _ (List.getLast_mem _)
      · exact ih h.2 (List.cons_ne_nil y rest) a ha

theorem dropWhile_all_gt (t : QCaDateTime) (l : QCaDataPointList)
    (h : l.Pairwise (fun a b : QCaDataPoint => a.datetime ≤ b.datetime)) :
    ∀ b ∈ l.dropWhile (fun p => decide (p.datetime ≤ t)), t < b.datetime := by
  induction l with
  | nil => simp
  | cons p rest ih =>
    rw [List.pairwise_cons] at h
    by_cases hp : p.datetime ≤ t
    · simpa [List.dropWhile_cons, hp] using ih h.2
    · intro b hb
      simp only [List.dropWhile_cons, hp, decide_False, Bool.false_eq_true, if_false] at hb
      rcases List.mem_cons.mp hb with rfl | hb
      · exact lt_of_not_le hp
      · exact lt_of_lt_of_le (lt_of_not_le hp) (h.1 b hb)

theorem pairwise_lt_to_le (l : QCaDataPointList)
    (h : l.Pairwise (fun a b : QCaDataPoint => a.datetime < b.datetime)) :
    l.Pairwise (fun a b : QCaDataPoint => a.datetime ≤ b.datetime) :=
  h.imp (fun hab => le_of_lt hab)

/-- The appended series is strictly increasing when both parts are. -/
theorem appendPage_pairwise (archiveData working : QCaDataPointList)
    (h1 : archiveData.Pairwise (fun a b : QCaDataPoint => a.datetime < b.datetime))
    (h2 : working.Pairwise (fun a b : QCaDataPoint => a.datetime < b.datetime)) :
    (appendPage archiveData working).Pairwise
      (fun a b : QCaDataPoint => a.datetime < b.datetime) := by
  unfold appendPage
  simp only [removeOverlap_eq_dropWhile]
  rw [List.pairwise_append]
  refine ⟨h1, h2.sublist (List.dropWhile_sublist _), ?_⟩
  intro a ha b hb
  have hne : archiveData ≠ [] := List.ne_nil_of_mem ha
  rw [value_last _ hne] at hb
  have hle := pairwise_lt_le_getLast archiveData (pairwise_lt_to_le _ h1) hne a ha
  have hgt := dropWhile_all_gt _ working (pairwise_lt_to_le _ h2) b hb
  exact lt_of_le_of_lt hle hgt

theorem mergePage_pairwise (pvData : PVData) (working : QCaDataPointList)
    (h1 : pvData.archiveData.Pairwise (fun a b : QCaDataPoint => a.datetime < b.datetime))
    (h2 : working.Pairwise (fun a b : QCaDataPoint => a.datetime < b.datetime)) :
    (mergePage pvData working).archiveData.Pairwise
      (fun a b : QCaDataPoint => a.datetime < b.datetime) := by
  unfold mergePage
  simp only
  split
  · exact h2
  · exact appendPage_pairwise _ _ h1 h2

/-! ## The trimming loop -/

theorem trimLoop_initial (endTime : QCaDateTime) (fuel : Nat) (l : QCaDataPointList) :
    trimLoop endTime fuel l <+: l := by
  induction fuel generalizing l with
  | zero => exact List.prefix_refl l
  | succ n ih =>
    unfold trimLoop
    split
    · exact List.prefix_refl l
    · simp only
      split
      · exact List.prefix_refl l
      · exact (ih l.dropLast).trans (List.dropLast_prefix l)

theorem trimLoop_length_ge (endTime : QCaDateTime) (fuel : Nat) (l : QCaDataPointList)
    (h : 2 ≤ l.length) : 2 ≤ (trimLoop endTime fuel l).length := by
  induction fuel generalizing l with
  | zero => exact h
  | succ n ih =>
    unfold trimLoop
    split
    · exact h
    · simp only
      split
      · exact h
      · apply ih
        rw [List.length_dropLast]
        omega

theorem trimLoop_small (endTime : QCaDateTime) (fuel : Nat) (l : QCaDataPointList)
    (h : l.length ≤ 2) : trimLoop endTime fuel l = l := by
  cases fuel with
  | zero => rfl
  | succ n => simp [trimLoop, h]

/-- With the number of samples as fuel the loop leaves through one of its two breaks. -/
theorem trimLoop_exit (endTime : QCaDateTime) (fuel : Nat) (l : QCaDataPointList)
    (h : l.length ≤ fuel) :
    (trimLoop endTime fuel l).length ≤ 2
      ∨ ((trimLoop endTime fuel l).value
          (((trimLoop endTime fuel l).length : Int) - 2)).datetime < endTime := by
  induction fuel generalizing l with
  | zero =>
    left
    simp only [trimLoop]
    omega
  | succ n ih =>
    unfold trimLoop
    split
    · left; assumption
    · simp only
      split
      · right; assumption
      · apply ih
        rw [List.length_dropLast]
        omega

theorem value_mem (l : QCaDataPointList) (i : Int) (h0 : 0 ≤ i) (h1 : i < l.length) :
    l.value i ∈ l := by
  unfold QCaDataPointList.value
  rw [if_pos ⟨h0, h1⟩]
  have hlt : i.toNat < l.length := by omega
  simp [List.getD_eq_getElem?_getD, List.getElem?_eq_getElem hlt]

/-! ## Re-merging a page -/

theorem appendPage_nil (S : QCaDataPointList) : appendPage S [] = S := by
  simp [appendPage, removeOverlap]

theorem appendPage_of_overlap (S P : QCaDataPointList) (hne : S ≠ [])
    (h : ∀ p ∈ P, p.datetime ≤ (S.getLast hne).datetime) : appendPage S P = S := by
  unfold appendPage
  simp only [value_last S hne, removeOverlap_eq_dropWhile]
  have hnil : P.dropWhile (fun p => decide (p.datetime ≤ (S.getLast hne).datetime)) = [] := by
    rw [List.dropWhile_eq_nil_iff]
    intro x hx
    simpa using h x hx
  rw [hnil, List.append_nil]

theorem appendPage_self (P : QCaDataPointList) (hP : TimeOrdered P) : appendPage P P = P := by
  by_cases hne : P = []
  · subst hne
    exact appendPage_nil []
  · exact appendPage_of_overlap P P hne (pairwise_lt_le_getLast P hP hne)

theorem appendPage_appendPage (S P : QCaDataPointList) (hP : TimeOrdered P) :
    appendPage (appendPage S P) P = appendPage S P := by
  have hM : appendPage S P = S ++ P.dropWhile (fun p =>
      decide (p.datetime ≤ (S.value ((S.length : Int) - 1)).datetime)) := by
    simp only [appendPage, removeOverlap_eq_dropWhile]
  generalize hR : P.dropWhile (fun p =>
      decide (p.datetime ≤ (S.value ((S.length : Int) - 1)).datetime)) = R at hM
  by_cases hRne : R = []
  · subst hRne
    rw [List.append_nil] at hM
    rw [hM]
    exact hM
  · have hMne : appendPage S P ≠ [] := by
      rw [hM]
      simp [hRne]
    apply appendPage_of_overlap _ _ hMne
    have hlast : (appendPage S P).getLast hMne = R.getLast hRne := by
      simp only [hM]
      exact List.getLast_append_of_ne_nil hRne
    rw [hlast]
    have hRord : TimeOrdered R := by
      rw [← hR]
      exact List.Pairwise.sublist (List.dropWhile_sublist _) hP
    intro p hp
    by_cases hpR : p ∈ R
    · exact pairwise_lt_le_getLast R hRord hRne p hpR
    · have hsplit := List.takeWhile_append_dropWhile (fun p : QCaDataPoint =>
        decide (p.datetime ≤ (S.value ((S.length : Int) - 1)).datetime)) P
      rw [hR] at hsplit
      rw [← hsplit] at hp
      rcases List.mem_append.mp hp with hp | hp
      · have hle := List.mem_takeWhile_imp hp
        simp only [decide_eq_true_eq] at hle
        have hgt := dropWhile_all_gt (S.value ((S.length : Int) - 1)).datetime P hP
          (R.getLast hRne) (by rw [hR]; exact List.getLast_mem hRne)
        exact le_of_lt (lt_of_le_of_lt hle hgt)
      · exact absurd hp hpR

theorem mergePage_twice (pvData : PVData) (P : QCaDataPointList) (hP : TimeOrdered P)
    (hcount : 0 ≤ pvData.responseCount) :
    (mergePage (countResponse (mergePage (countResponse pvData) P)) P).archiveData
      = (mergePage (countResponse pvData) P).archiveData := by
  by_cases h0 : pvData.responseCount = 0
  · simp [mergePage, countResponse, h0, appendPage_self P hP]
  · have h1 : ¬ (pvData.responseCount + 1 = 1) := by omega
    have h2 : ¬ (pvData.responseCount + 1 + 1 = 1) := by omega
    simp [mergePage, countResponse, h1, h2, appendPage_appendPage _ P hP]

/-! ## The transition made by setArchiveData -/

theorem nextRequestState_eq (s : RadControl) :
    nextRequestState s
      = { s with state := if s.pvIndex < s.numberPVNames then States.sendRequest
                          else States.printAll } := by
  unfold nextRequestState
  split <;> rfl

theorem postProcess_isOkayStatus (resample : Resampler) (s : RadControl) (pvData : PVData) :
    (postProcess resample s pvData).isOkayStatus = pvData.isOkayStatus := by
  unfold postProcess
  split
  · split <;> rfl
  · rfl

theorem postProcess_pvName (resample : Resampler) (s : RadControl) (pvData : PVData) :
    (postProcess resample s pvData).pvName = pvData.pvName := by
  unfold postProcess
  split
  · split <;> rfl
  · rfl

theorem postProcess_responseCount (resample : Resampler) (s : RadControl) (pvData : PVData) :
    (postProcess resample s pvData).responseCount = pvData.responseCount := by
  unfold postProcess
  split
  · split <;> rfl
  · rfl

/-- Every response either advances pvIndex or moves the cursor strictly forward to a time
strictly before endTime. -/
theorem setArchiveData_step (resample : Resampler) (s : RadControl) (i : Fin MaximumPVNames)
    (hi : s.pvIndex = (i.val : Int)) (okay : Bool) (page : QCaDataPointList) :
    ∃ s2 : RadControl, setArchiveData resample s okay page = Outcome.ok s2
      ∧ s2.endTime = s.endTime ∧ s2.startTime = s.startTime
      ∧ (s2.pvIndex = s.pvIndex + 1
          ∨ (s2.pvIndex = s.pvIndex ∧ s.nextTime < s2.nextTime ∧ s2.nextTime < s.endTime)) := by
  rw [setArchiveData_eq resample s i hi]
  refine ⟨_, rfl, ?_⟩
  unfold receivePage
  simp only [nextRequestState_eq]
  split
  · split
    · rename_i hcont
      exact ⟨rfl, rfl, Or.inr ⟨rfl, hcont.2.2, hcont.2.1⟩⟩
    · exact ⟨rfl, rfl, Or.inl rfl⟩
  · exact ⟨rfl, rfl, Or.inl rfl⟩

theorem cursor_measure (e a b : Int) (fuel : Nat) (h1 : a < b) (h2 : b < e)
    (hf : max 1 (e - a).toNat ≤ fuel + 1) :
    max 1 (e - b).toNat ≤ fuel ∧ 1 + max 1 (e - b).toNat ≤ max 1 (e - a).toNat := by
  omega

theorem pagesUntilAdvance_bound (resample : Resampler)
    (responses : Nat → Bool × QCaDataPointList) (i : Fin MaximumPVNames) :
    ∀ (fuel k : Nat) (s : RadControl), s.pvIndex = (i.val : Int) →
      max 1 (s.endTime - s.nextTime).toNat ≤ fuel →
      ∃ n : Nat, pagesUntilAdvance resample responses fuel k s = some n
        ∧ k + 1 ≤ n ∧ n ≤ k + max 1 (s.endTime - s.nextTime).toNat := by
  intro fuel
  induction fuel with
  | zero =>
    intro k s _ hfuel
    have : 1 ≤ max 1 (s.endTime - s.nextTime).toNat := le_max_left _ _
    omega
  | succ fuel ih =>
    intro k s hi hfuel
    obtain ⟨s2, hs2, hend, _, hcase⟩ :=
      setArchiveData_step resample s i hi (responses k).1 (responses k).2
    simp only [pagesUntilAdvance, hs2]
    rcases hcase with hadv | ⟨hsame, hlt1, hlt2⟩
    · have hne : ¬ (s2.pvIndex = s.pvIndex) := by omega
      rw [if_neg hne]
      refine ⟨k + 1, rfl, le_refl _, ?_⟩
      have : 1 ≤ max 1 (s.endTime - s.nextTime).toNat := le_max_left _ _
      omega
    · rw [if_pos hsame]
      have haux := cursor_measure s.endTime s.nextTime s2.nextTime fuel hlt1 hlt2 hfuel
      obtain ⟨n, hn, hlo, hhi⟩ :=
        ih (k + 1) s2 (by rw [hsame]; exact hi) (by rw [hend]; exact haux.1)
      rw [hend] at hhi
      have h2 := haux.2
      exact ⟨n, hn, by omega, by omega⟩

/-! ## Rows of the table of several channels -/

theorem pvIndices_getElem? (s : RadControl) (i : Fin MaximumPVNames)
    (h : (i.val : Int) < s.numberPVNames) : (pvIndices s)[i.val]? = some i := by
  have hlt : i.val < s.numberPVNames.toNat := by omega
  unfold pvIndices
  rw [List.getElem?_take_of_lt hlt]
  have hlen : i.val < (List.finRange MaximumPVNames).length := by
    rw [List.length_finRange]
    exact i.isLt
  rw [List.getElem?_eq_getElem hlen, List.getElem_finRange]
  rfl

/-- A channel without okay status shows "nil" in every row. -/
theorem putArchiveDataRows_nil (isDisplayable : QCaDataPoint → Bool) (t : RadControl)
    (i : Fin MaximumPVNames) (hnull : isDisplayable outputNullPoint = false)
    (hi : (i.val : Int) < t.numberPVNames) (hstatus : (t.pvDataList i).isOkayStatus = false) :
    ∀ row ∈ putArchiveDataRows isDisplayable t, row.fields[i.val]? = some Field.nil := by
  intro row hrow
  unfold putArchiveDataRows at hrow
  obtain ⟨j, _, rfl⟩ := List.mem_map.mp hrow
  simp only [putDatumSet, List.getElem?_map, pvIndices_getElem? t i hi, Option.map_some']
  simp [pointSet, hstatus, hnull]

theorem mem_pvIndices (s : RadControl) (pv : Fin MaximumPVNames) :
    pv ∈ pvIndices s ↔ (pv.val : Int) < s.numberPVNames := by
  constructor
  · intro h
    unfold pvIndices at h
    obtain ⟨k, hk, hget⟩ := List.mem_take_iff_getElem.mp h
    rw [List.getElem_finRange] at hget
    have hval : k = pv.val := by
      rw [← hget]
      rfl
    have hk1 : k < s.numberPVNames.toNat := lt_of_lt_of_le hk (min_le_left _ _)
    omega
  · intro h
    exact List.getElem?_mem (pvIndices_getElem? s pv h)

/-- The running maximum of the loop over the channels: it never falls below its start, it bounds
the count of every okay channel, and it is the start or the count of an okay channel. -/
theorem foldl_max_spec (s : RadControl) (l : List (Fin MaximumPVNames)) :
    ∀ start : Int,
      start ≤ l.foldl (fun number pv =>
          if (s.pvDataList pv).isOkayStatus
          then max number ((s.pvDataList pv).archiveData.length : Int) else number) start
      ∧ (∀ pv ∈ l, (s.pvDataList pv).isOkayStatus = true →
          ((s.pvDataList pv).archiveData.length : Int) ≤ l.foldl (fun number pv =>
            if (s.pvDataList pv).isOkayStatus
            then max number ((s.pvDataList pv).archiveData.length : Int) else number) start)
      ∧ (l.foldl (fun number pv =>
            if (s.pvDataList pv).isOkayStatus
            then max number ((s.pvDataList pv).archiveData.length : Int) else number) start = start
          ∨ ∃ pv ∈ l, (s.pvDataList pv).isOkayStatus = true
              ∧ ((s.pvDataList pv).archiveData.length : Int) = l.foldl (fun number pv =>
                  if (s.pvDataList pv).isOkayStatus
                  then max number ((s.pvDataList pv).archiveData.length : Int) else number)
                  start) := by
  induction l with
  | nil =>
    intro start
    simp
  | cons a rest ih =>
    intro start
    simp only [List.foldl_cons]
    by_cases hok : (s.pvDataList a).isOkayStatus = true
    · simp only [hok, if_true]
      obtain ⟨h1, h2, h3⟩ := ih (max start ((s.pvDataList a).archiveData.length : Int))
      refine ⟨le_trans (le_max_left _ _) h1, ?_, ?_⟩
      · intro pv hpv hpvok
        rcases List.mem_cons.mp hpv with rfl | hmem
        · exact le_trans (le_max_right _ _) h1
        · exact h2 pv hmem hpvok
      · rcases h3 with heq | ⟨pv, hmem, hpvok, hcount⟩
        · rcases le_total start ((s.pvDataList a).archiveData.length : Int) with hle | hle
          · right
            refine ⟨a, List.mem_cons_self _ _, hok, ?_⟩
            rw [heq, max_eq_right hle]
          · left
            rw [heq, max_eq_left hle]
        · right
          exact ⟨pv, List.mem_cons_of_mem _ hmem, hpvok, hcount⟩
    · simp only [hok, Bool.false_eq_true, if_false]
      obtain ⟨h1, h2, h3⟩ := ih start
      refine ⟨h1, ?_, ?_⟩
      · intro pv hpv hpvok
        rcases List.mem_cons.mp hpv with rfl | hmem
        · exact absurd hpvok hok
        · exact h2 pv hmem hpvok
      · rcases h3 with heq | ⟨pv, hmem, hpvok, hcount⟩
        · left
          exact heq
        · right
          exact ⟨pv, List.mem_cons_of_mem _ hmem, hpvok, hcount⟩

theorem numberOfRows_spec (s : RadControl) :
    0 ≤ numberOfRows s
    ∧ (∀ pv : Fin MaximumPVNames, (pv.val : Int) < s.numberPVNames →
        (s.pvDataList pv).isOkayStatus = true →
        ((s.pvDataList pv).archiveData.length : Int) ≤ numberOfRows s)
    ∧ (numberOfRows s = 0
        ∨ ∃ pv : Fin MaximumPVNames, (pv.val : Int) < s.numberPVNames
            ∧ (s.pvDataList pv).isOkayStatus = true
            ∧ ((s.pvDataList pv).archiveData.length : Int) = numberOfRows s) := by
  obtain ⟨h1, h2, h3⟩ := foldl_max_spec s (pvIndices s) 0
  refine ⟨h1, fun pv hpv hok => h2 pv ((mem_pvIndices s pv).mpr hpv) hok, ?_⟩
  rcases h3 with heq | ⟨pv, hmem, hok, hcount⟩
  · left
    exact heq
  · right
    exact ⟨pv, (mem_pvIndices s pv).mp hmem, hok, hcount⟩

theorem value_getElem (l : QCaDataPointList) (j : Nat) (h : j < l.length) :
    l.value (j : Int) = l.get ⟨j, h⟩ := by
  unfold QCaDataPointList.value
  have hcond : 0 ≤ (j : Int) ∧ (j : Int) < l.length := by omega
  rw [if_pos hcond]
  simp [List.getD_eq_getElem?_getD, List.getElem?_eq_getElem h]

theorem putArchiveDataRows_eq_map (isDisplayable : QCaDataPoint → Bool) (s : RadControl) :
    putArchiveDataRows isDisplayable s
      = (List.range (numberOfRows s).toNat).map
          (fun j : Nat =>
            putDatumSet isDisplayable s (pointSet s (j : Int)) (j : Int) s.startTime) := by
  unfold putArchiveDataRows
  simp only [List.bind_eq_flatMap, List.pure_def, ← List.map_eq_flatMap, List.map_map]
  rfl

theorem putArchiveDataRows_length (isDisplayable : QCaDataPoint → Bool) (s : RadControl) :
    (putArchiveDataRows isDisplayable s).length = (numberOfRows s).toNat := by
  rw [putArchiveDataRows_eq_map, List.length_map, List.length_range]

theorem putArchiveDataRows_get (isDisplayable : QCaDataPoint → Bool) (s : RadControl) (j : Nat)
    (hj : j < (putArchiveDataRows isDisplayable s).length) :
    (putArchiveDataRows isDisplayable s).get ⟨j, hj⟩
      = putDatumSet isDisplayable s (pointSet s (j : Int)) (j : Int) s.startTime := by
  have hget : (putArchiveDataRows isDisplayable s)[j]?
      = some (putDatumSet isDisplayable s (pointSet s (j : Int)) (j : Int) s.startTime) := by
    have hlt : j < (numberOfRows s).toNat := by
      rw [← putArchiveDataRows_length isDisplayable s]
      exact hj
    rw [putArchiveDataRows_eq_map, List.getElem?_map, List.getElem?_range hlt]
    rfl
  rw [List.get_eq_getElem]
  rw [List.getElem?_eq_getElem hj] at hget
  exact Option.some.inj hget

theorem putDatumSet_field (isDisplayable : QCaDataPoint → Bool) (s : RadControl)
    (p : Fin MaximumPVNames → QCaDataPoint) (j : Int) (firstTime : QCaDateTime)
    (pv : Fin MaximumPVNames) (hpv : (pv.val : Int) < s.numberPVNames) :
    (putDatumSet isDisplayable s p j firstTime).fields[pv.val]?
      = some (if isDisplayable (p pv) then Field.number (p pv).value else Field.nil) := by
  simp only [putDatumSet, List.getElem?_map, pvIndices_getElem? s pv hpv, Option.map_some']

/-! ## Conversions to int -/

theorem castInt_of_nonneg (x : ℚ) (h0 : 0 ≤ x) (h1 : x < 2147483648) :
    castInt x = some ⌊x⌋ := by
  have ha : (-2147483648 : Int) ≤ ⌊x⌋ := le_trans (by norm_num) (Int.floor_nonneg.mpr h0)
  have hb : ⌊x⌋ ≤ 2147483647 := by
    have hlt : ⌊x⌋ < 2147483648 := Int.floor_lt.mpr (by exact_mod_cast h1)
    omega
  unfold castInt
  simp only [h0, if_true]
  rw [if_pos ⟨ha, hb⟩]

theorem readArchive_eq (s : RadControl) (i : Fin MaximumPVNames)
    (hi : s.pvIndex = (i.val : Int)) :
    readArchive s
      = match castInt (max (secondsTo s.nextTime s.endTime * (105 / 100)) 60) with
        | some secs =>
          Outcome.ok { pvName := (s.pvDataList i).pvName, t0 := toUTC s.nextTime,
                       t1 := toUTC (addSecs s.nextTime secs), count := 20000, how := s.how }
        | none => Outcome.undefined := by
  have hlt : i.val < MaximumPVNames := i.isLt
  have hguard : ¬ (s.pvIndex < 0 ∨ s.pvIndex ≥ (MaximumPVNames : Int)) := by omega
  have hidx : s.pvIndex.toNat = i.val := by omega
  have hfin : (⟨s.pvIndex.toNat, by omega⟩ : Fin MaximumPVNames) = i := Fin.ext hidx
  unfold readArchive
  rw [dif_neg hguard]
  simp only [hfin]

theorem specAdjustedEnd_sub (c e : ℚ) :
    specAdjustedEnd c e - c = max ((e - c) * (105 / 100)) 60 := by
  unfold specAdjustedEnd
  rw [max_add_add_left]
  ring

theorem secondsTo_eq (t0 t1 : QCaDateTime) : secondsTo t0 t1 = seconds t1 - seconds t0 := by
  unfold secondsTo seconds
  push_cast
  ring

theorem seconds_addSecs (t : QCaDateTime) (secs : Int) :
    seconds (addSecs t secs) = seconds t + secs := by
  unfold seconds addSecs
  push_cast
  ring

theorem ceil_div_hundred (m : Int) : ⌈(m : ℚ) / 100⌉ = (m + 99) / 100 := by
  rw [Int.ceil_eq_iff]
  have h1 : 100 * ((m + 99) / 100) ≤ m + 99 := by omega
  have h2 : m + 99 < 100 * ((m + 99) / 100) + 100 := by omega
  have h1q : (100 : ℚ) * (((m + 99) / 100 : Int) : ℚ) ≤ (m : ℚ) + 99 := by exact_mod_cast h1
  have h2q : (m : ℚ) + 99 < 100 * (((m + 99) / 100 : Int) : ℚ) + 100 := by exact_mod_cast h2
  have hint : ((m + 99) / 100 : Int) * 100 ≥ m := by omega
  have hintq : (((m + 99) / 100 : Int) : ℚ) * 100 ≥ (m : ℚ) := by exact_mod_cast hint
  constructor
  · rw [lt_div_iff₀ (by norm_num : (0 : ℚ) < 100)]
    linarith
  · rw [div_le_iff₀ (by norm_num : (0 : ℚ) < 100)]
    linarith

theorem floor_add_div_hundred (m : Int) : ⌊((m : ℚ) + 99) / 100⌋ = (m + 99) / 100 := by
  have h := Rat.floor_intCast_div_natCast (m + 99) 100
  push_cast at h
  exact h

theorem setTimeout_eq (s : RadControl) (d : ℚ) (h0 : 0 ≤ (1000 * d + 99) / 100)
    (h1 : (1000 * d + 99) / 100 < 2147483648) :
    setTimeout s d = Outcome.ok { s with timeout := max 1 ⌊(1000 * d + 99) / 100⌋ } := by
  have hcast := castInt_of_nonneg _ h0 h1
  unfold setTimeout tickInterval
  have harg : (1000 * d + ((100 : ℚ) - 1)) / 100 = (1000 * d + 99) / 100 := by norm_num
  simp only [harg, hcast]
  congr 2
  by_cases hlt : ⌊(1000 * d + 99) / 100⌋ < 1
  · rw [if_pos hlt, max_eq_left (by omega)]
  · rw [if_neg hlt, max_eq_right (by omega)]

theorem setTimeout_twenty (s : RadControl) :
    setTimeout s 20 = Outcome.ok { s with timeout := 200 } := by
  have hf : ⌊((1000 : ℚ) * 20 + 99) / 100⌋ = 200 := by
    rw [Int.floor_eq_iff]
    constructor <;> norm_num
  have h := setTimeout_eq s 20 (by norm_num) (by norm_num)
  rw [hf] at h
  exact h

theorem setTimeout_sixty (s : RadControl) :
    setTimeout s 60 = Outcome.ok { s with timeout := 600 } := by
  have hf : ⌊((1000 : ℚ) * 60 + 99) / 100⌋ = 600 := by
    rw [Int.floor_eq_iff]
    constructor <;> norm_num
  have h := setTimeout_eq s 60 (by norm_num) (by norm_num)
  rw [hf] at h
  exact h

/-! ## Setup -/

/-- The loop over the further channel names either changes nothing, or leaves more channels,
fixed sampling in use, and the interval it found, 1 when it found none. -/
theorem pvNameLoop_spec (options : QEOptions) :
    ∀ (fuel j : Nat) (s : RadControl), s.numberPVNames = (j : Int) →
      pvNameLoop options fuel j s = s
      ∨ ((j : Int) < (pvNameLoop options fuel j s).numberPVNames
          ∧ (pvNameLoop options fuel j s).useFixedTime = true
          ∧ (pvNameLoop options fuel j s).fixedTime
              = if s.useFixedTime then s.fixedTime else 1) := by
  intro fuel
  induction fuel with
  | zero =>
    intro j s _
    left
    rfl
  | succ fuel ih =>
    intro j s hj
    unfold pvNameLoop
    by_cases hlt : j < MaximumPVNames
    · rw [dif_pos hlt]
      by_cases hpv : (options.getParameter (j + 3)).isEmpty = true
      · left
        simp [hpv]
      · right
        simp only [hpv, Bool.false_eq_true, if_false]
        have key : ∀ t : RadControl, t.numberPVNames = ((j + 1 : Nat) : Int) →
            t.useFixedTime = true →
            t.fixedTime = (if s.useFixedTime then s.fixedTime else 1) →
            (j : Int) < (pvNameLoop options fuel (j + 1) t).numberPVNames
              ∧ (pvNameLoop options fuel (j + 1) t).useFixedTime = true
              ∧ (pvNameLoop options fuel (j + 1) t).fixedTime
                  = if s.useFixedTime then s.fixedTime else 1 := by
          intro t ht1 ht2 ht3
          rcases ih (j + 1) t ht1 with heq | ⟨h1, h2, h3⟩
          · rw [heq]
            exact ⟨by rw [ht1]; push_cast; omega, ht2, ht3⟩
          · refine ⟨by push_cast at h1; omega, h2, ?_⟩
            rw [h3, ht2, if_pos rfl, ht3]
        apply key
        · simp
        · by_cases hu : s.useFixedTime = true <;> simp [hu]
        · by_cases hu : s.useFixedTime = true <;> simp [hu]
    · left
      rw [dif_neg hlt]

theorem initialiseChannels_spec (options : QEOptions) (s : RadControl)
    (hok : (initialiseChannels options s).state = States.initialWait) :
    ((initialiseChannels options s).numberPVNames = 1
        ∧ (initialiseChannels options s).useFixedTime = s.useFixedTime
        ∧ (initialiseChannels options s).fixedTime = s.fixedTime)
    ∨ (1 < (initialiseChannels options s).numberPVNames
        ∧ (initialiseChannels options s).useFixedTime = true
        ∧ (initialiseChannels options s).fixedTime
            = if s.useFixedTime then s.fixedTime else 1) := by
  unfold initialiseChannels at hok ⊢
  by_cases hpv : (options.getParameter 3).isEmpty = true
  · simp [hpv, usage] at hok
  · simp only [hpv, Bool.false_eq_true, if_false]
    rcases pvNameLoop_spec options MaximumPVNames 1
        { s with
          pvDataList := Function.update s.pvDataList 0
            { s.pvDataList 0 with pvName := options.getParameter 3 },
          numberPVNames := 1 } rfl with heq | ⟨h1, h2, h3⟩
    · left
      rw [heq]
      exact ⟨rfl, rfl, rfl⟩
    · right
      exact ⟨by simpa using h1, h2, h3⟩

theorem initialiseParameters_spec (env : Environment) (s : RadControl)
    (hok : (initialiseParameters env s).state = States.initialWait) :
    ∃ t : RadControl, t.useFixedTime = s.useFixedTime ∧ t.fixedTime = s.fixedTime
      ∧ initialiseParameters env s = initialiseChannels env.options t := by
  unfold initialiseParameters at hok ⊢
  simp only at hok ⊢
  by_cases h1 : (env.options.getParameter 0).isEmpty = true
  · simp [h1, usage] at hok
  · simp only [h1, Bool.false_eq_true, if_false] at hok ⊢
    by_cases h2 : (value env s.timeZoneSpec (env.options.getParameter 1)).2 = true
    · simp only [h2, Bool.not_true, Bool.false_eq_true, if_false] at hok ⊢
      by_cases h3 : (value env s.timeZoneSpec (env.options.getParameter 2)).2 = true
      · simp only [h3, Bool.not_true, Bool.false_eq_true, if_false] at hok ⊢
        exact ⟨{ s with
                 outputFile := env.options.getParameter 0,
                 startTime := (value env s.timeZoneSpec (env.options.getParameter 1)).1,
                 endTime := (value env s.timeZoneSpec (env.options.getParameter 2)).1 },
               rfl, rfl, rfl⟩
      · simp [h3, usage] at hok
    · simp [h2, usage] at hok

theorem initialiseFixed_spec (options : QEOptions) (s : RadControl)
    (hfixed : s.useFixedTime = false) :
    ((initialiseFixed options s).2 = false
        ∧ (initialiseFixed options s).1.state = States.errorExit)
    ∨ ((initialiseFixed options s).2 = true ∧ options.fixedSpecified = false
        ∧ (initialiseFixed options s).1.useFixedTime = false)
    ∨ ((initialiseFixed options s).2 = true ∧ options.fixedSpecified = true
        ∧ options.getFloat (-99) ≠ -99
        ∧ (initialiseFixed options s).1.useFixedTime = true
        ∧ (initialiseFixed options s).1.fixedTime
            = if options.getFloat (-99) < 1 / 4 then 1 / 4 else options.getFloat (-99)) := by
  unfold initialiseFixed
  by_cases hs : options.fixedSpecified = true
  · by_cases hv : options.getFloat (-99) = -99
    · left
      simp [hs, hv]
    · right; right
      simp [hs, hv]
  · right; left
    simp [hs, hfixed]

/-- What a successful setup leaves: the sampling interval chosen from the option "fixed" and
the number of channel names. -/
theorem initialise_spec (env : Environment) (s : RadControl)
    (hok : (initialise env s).state = States.initialWait) :
    1 ≤ (initialise env s).numberPVNames
    ∧ ((initialise env s).useFixedTime = true
        ↔ env.options.fixedSpecified = true ∨ 1 < (initialise env s).numberPVNames)
    ∧ (env.options.fixedSpecified = true →
        (initialise env s).fixedTime
          = if env.options.getFloat (-99) < 1 / 4 then 1 / 4 else env.options.getFloat (-99))
    ∧ (env.options.fixedSpecified = false → 1 < (initialise env s).numberPVNames →
        (initialise env s).fixedTime = 1) := by
  unfold initialise at hok ⊢
  by_cases hhelp : env.options.help = true
  · simp [hhelp] at hok
  · simp only [hhelp, Bool.false_eq_true, if_false] at hok ⊢
    rcases initialiseFixed_spec env.options
        (initialiseFlags env.options { s with state := States.errorExit }) rfl
      with ⟨h2, hst⟩ | ⟨h2, hspec, huse⟩ | ⟨h2, hspec, _, huse, hval⟩
    · simp only [h2, Bool.false_eq_true, if_false] at hok
      rw [hst] at hok
      exact absurd hok (by decide)
    · simp only [h2, if_true] at hok ⊢
      obtain ⟨t, ht1, ht2, hpar⟩ := initialiseParameters_spec env _ hok
      rw [hpar] at hok ⊢
      rcases initialiseChannels_spec env.options t hok with ⟨hn, hu, _⟩ | ⟨hn, hu, hf⟩
      · refine ⟨by omega, ?_, ?_, ?_⟩
        · rw [hu, ht1, huse, hspec, hn]
          simp
        · intro h
          rw [hspec] at h
          exact absurd h (by decide)
        · intro _ h
          omega
      · refine ⟨by omega, ?_, ?_, ?_⟩
        · rw [hu]
          simp [hn]
        · intro h
          rw [hspec] at h
          exact absurd h (by decide)
        · intro _ _
          rw [hf, ht1, huse]
          simp
    · simp only [h2, if_true] at hok ⊢
      obtain ⟨t, ht1, ht2, hpar⟩ := initialiseParameters_spec env _ hok
      rw [hpar] at hok ⊢
      rcases initialiseChannels_spec env.options t hok with ⟨hn, hu, hf⟩ | ⟨hn, hu, hf⟩
      · refine ⟨by omega, ?_, ?_, ?_⟩
        · rw [hu, ht1, huse]
          simp [hspec]
        · intro _
          rw [hf, ht2, hval]
        · intro h
          rw [hspec] at h
          exact absurd h (by decide)
      · refine ⟨by omega, ?_, ?_, ?_⟩
        · rw [hu]
          simp [hspec]
        · intro _
          rw [hf, ht1, huse, if_pos rfl, ht2, hval]
        · intro h
          rw [hspec] at h
          exact absurd h (by decide)

theorem initialiseChannels_count (options : QEOptions) (s : RadControl)
    (hok : (initialiseChannels options s).state = States.initialWait) :
    1 < (initialiseChannels options s).numberPVNames
      ↔ (options.getParameter 4).isEmpty = false := by
  unfold initialiseChannels at hok ⊢
  by_cases hpv : (options.getParameter 3).isEmpty = true
  · simp [hpv, usage] at hok
  · simp only [hpv, Bool.false_eq_true, if_false]
    have hunfold : ∀ t : RadControl, pvNameLoop options MaximumPVNames 1 t
        = pvNameLoop options (19 + 1) 1 t := fun _ => rfl
    rw [hunfold]
    unfold pvNameLoop
    have hlt : 1 < MaximumPVNames := by decide
    rw [dif_pos hlt]
    by_cases h4 : (options.getParameter 4).isEmpty = true
    · simp [h4]
    · simp only [h4, Bool.false_eq_true, if_false]
      have hrest : ∀ t : RadControl, t.numberPVNames = ((1 + 1 : Nat) : Int) →
          1 < (pvNameLoop options 19 (1 + 1) t).numberPVNames := by
        intro t ht
        rcases pvNameLoop_spec options 19 (1 + 1) t ht with heq | ⟨h1, _, _⟩
        · rw [heq, ht]
          norm_num
        · have : ((1 + 1 : Nat) : Int) = 2 := by norm_num
          omega
      simp only [Bool.not_eq_true] at h4
      simp only [h4, iff_true]
      apply hrest
      simp

/-- Setup succeeds when no help is asked for, a fixed interval, if given, can be read, and the
output file, the two times and the first channel name are there. -/
theorem initialise_initialWait (env : Environment) (s : RadControl)
    (hhelp : env.options.help = false)
    (hfixed : env.options.fixedSpecified = true → env.options.getFloat (-99) ≠ -99)
    (hout : (env.options.getParameter 0).isEmpty = false)
    (hstart : ∀ z : TimeSpec, (value env z (env.options.getParameter 1)).2 = true)
    (hend : ∀ z : TimeSpec, (value env z (env.options.getParameter 2)).2 = true)
    (hpv : (env.options.getParameter 3).isEmpty = false) :
    (initialise env s).state = States.initialWait := by
  have hchannels : ∀ t : RadControl,
      (initialiseChannels env.options t).state = States.initialWait := by
    intro t
    simp [initialiseChannels, hpv]
  have hparams : ∀ t : RadControl,
      (initialiseParameters env t).state = States.initialWait := by
    intro t
    unfold initialiseParameters
    simp only [hout, Bool.false_eq_true, if_false, hstart, hend, Bool.not_true]
    exact hchannels _
  unfold initialise
  simp only [hhelp, Bool.false_eq_true, if_false]
  rcases initialiseFixed_spec env.options
      (initialiseFlags env.options { s with state := States.errorExit }) rfl
    with ⟨h2, _⟩ | ⟨h2, _⟩ | ⟨h2, _⟩
  · exfalso
    unfold initialiseFixed at h2
    by_cases hs : env.options.fixedSpecified = true
    · simp [hs, hfixed hs] at h2
    · simp [hs] at h2
  · rw [if_pos h2]
    exact hparams _
  · rw [if_pos h2]
    exact hparams _

/-- The ticks in which the state machine starts a timeout: 200 ticks after setup, 600 ticks
when the initial wait is over and when a request has been sent. -/
theorem tickTimeout_timeouts (env : Environment) (s : RadControl) :
    (s.state = States.setup →
      tickTimeout env s = Outcome.ok { initialise env s with timeout := 200 })
    ∧ (s.state = States.initialWait → s.timeout - 1 ≤ 0 →
        tickTimeout env s
          = Outcome.ok { s with timeout := 600, state := States.waitArchiverReady })
    ∧ (∀ r : ArchiveRequest, s.state = States.sendRequest → readArchive s = Outcome.ok r →
        tickTimeout env s
          = Outcome.ok { s with state := States.waitResponse, timeout := 600 }) := by
  refine ⟨?_, ?_, ?_⟩
  · intro h
    simp only [tickTimeout, h, setTimeout_twenty]
  · intro h hle
    simp only [tickTimeout, h, hle, if_true, setTimeout_sixty, Outcome.bind]
  · intro r h hr
    simp only [tickTimeout, h, hr, Outcome.bind, setTimeout_sixty]

/-! ## The channels after setup -/

/-- The loop over the further channel names leaves the channels before `j` as they were, makes
every channel it adds fresh, and stays within the table. -/
theorem pvNameLoop_channels (options : QEOptions) :
    ∀ (fuel j : Nat) (s : RadControl), s.numberPVNames = (j : Int) → j ≤ MaximumPVNames →
      (j : Int) ≤ (pvNameLoop options fuel j s).numberPVNames
      ∧ (pvNameLoop options fuel j s).numberPVNames ≤ (MaximumPVNames : Int)
      ∧ (∀ i : Fin MaximumPVNames, i.val < j →
          (pvNameLoop options fuel j s).pvDataList i = s.pvDataList i)
      ∧ (∀ i : Fin MaximumPVNames, j ≤ i.val →
          (i.val : Int) < (pvNameLoop options fuel j s).numberPVNames →
          Fresh ((pvNameLoop options fuel j s).pvDataList i)) := by
  intro fuel
  induction fuel with
  | zero =>
    intro j s hj hle
    refine ⟨by simp [pvNameLoop, hj], by simp only [pvNameLoop, hj]; omega, fun _ _ => rfl, ?_⟩
    intro i hji hlt
    simp only [pvNameLoop, hj] at hlt
    omega
  | succ fuel ih =>
    intro j s hj hle
    unfold pvNameLoop
    by_cases hlt : j < MaximumPVNames
    · rw [dif_pos hlt]
      by_cases hpv : (options.getParameter (j + 3)).isEmpty = true
      · rw [if_pos hpv]
        refine ⟨by omega, by omega, fun _ _ => rfl, ?_⟩
        intro i hji hin
        omega
      · simp only [hpv, Bool.false_eq_true, if_false]
        have key : ∀ t : RadControl, t.numberPVNames = ((j + 1 : Nat) : Int) →
            (∀ i : Fin MaximumPVNames, i.val < j → t.pvDataList i = s.pvDataList i) →
            Fresh (t.pvDataList ⟨j, hlt⟩) →
            (j : Int) ≤ (pvNameLoop options fuel (j + 1) t).numberPVNames
            ∧ (pvNameLoop options fuel (j + 1) t).numberPVNames ≤ (MaximumPVNames : Int)
            ∧ (∀ i : Fin MaximumPVNames, i.val < j →
                (pvNameLoop options fuel (j + 1) t).pvDataList i = s.pvDataList i)
            ∧ (∀ i : Fin MaximumPVNames, j ≤ i.val →
                (i.val : Int) < (pvNameLoop options fuel (j + 1) t).numberPVNames →
                Fresh ((pvNameLoop options fuel (j + 1) t).pvDataList i)) := by
          intro t ht hsame hfresh
          obtain ⟨h1, h2, h3, h4⟩ := ih (j + 1) t ht (by omega)
          refine ⟨by push_cast at h1; omega, h2, ?_, ?_⟩
          · intro i hi
            rw [h3 i (by omega)]
            exact hsame i hi
          · intro i hji hin
            by_cases heq : i.val = j
            · have hi : i = ⟨j, hlt⟩ := Fin.ext heq
              rw [h3 i (by omega), hi]
              exact hfresh
            · exact h4 i (by omega) hin
        apply key
        · simp
        · intro i hi
          have hne : i ≠ ⟨j, hlt⟩ := by
            intro h
            rw [h] at hi
            exact absurd hi (lt_irrefl j)
          by_cases hu : s.useFixedTime = true <;> simp [hu, Function.update_noteq hne]
        · by_cases hu : s.useFixedTime = true <;> simp [hu, Fresh]
    · rw [dif_neg hlt]
      refine ⟨by omega, by omega, fun _ _ => rfl, ?_⟩
      intro i hji hin
      omega

/-- The channel part of setup: from 1 to 20 channels, channel 0 with no more than its name
changed, every further channel fresh. -/
theorem initialiseChannels_channels (options : QEOptions) (s : RadControl)
    (hok : (initialiseChannels options s).state = States.initialWait) :
    1 ≤ (initialiseChannels options s).numberPVNames
    ∧ (initialiseChannels options s).numberPVNames ≤ (MaximumPVNames : Int)
    ∧ ((initialiseChannels options s).pvDataList 0).isOkayStatus
        = (s.pvDataList 0).isOkayStatus
    ∧ ((initialiseChannels options s).pvDataList 0).responseCount
        = (s.pvDataList 0).responseCount
    ∧ ((initialiseChannels options s).pvDataList 0).archiveData
        = (s.pvDataList 0).archiveData
    ∧ (∀ i : Fin MaximumPVNames, 1 ≤ i.val →
        (i.val : Int) < (initialiseChannels options s).numberPVNames →
        Fresh ((initialiseChannels options s).pvDataList i)) := by
  unfold initialiseChannels at hok ⊢
  by_cases hpv : (options.getParameter 3).isEmpty = true
  · simp [hpv, usage] at hok
  · simp only [hpv, Bool.false_eq_true, if_false]
    obtain ⟨h1, h2, h3, h4⟩ := pvNameLoop_channels options MaximumPVNames 1
      { s with
        pvDataList := Function.update s.pvDataList 0
          { s.pvDataList 0 with pvName := options.getParameter 3 },
        numberPVNames := 1 } rfl (by decide)
    have h0 := h3 0 (by decide)
    refine ⟨by simpa using h1, h2, ?_, ?_, ?_, h4⟩
    · simp only [h0, Function.update_same]
    · simp only [h0, Function.update_same]
    · simp only [h0, Function.update_same]

theorem initialiseParameters_channels (env : Environment) (s : RadControl)
    (hok : (initialiseParameters env s).state = States.initialWait) :
    ∃ t : RadControl, t.pvDataList = s.pvDataList
      ∧ initialiseParameters env s = initialiseChannels env.options t := by
  unfold initialiseParameters at hok ⊢
  simp only at hok ⊢
  by_cases h1 : (env.options.getParameter 0).isEmpty = true
  · simp [h1, usage] at hok
  · simp only [h1, Bool.false_eq_true, if_false] at hok ⊢
    by_cases h2 : (value env s.timeZoneSpec (env.options.getParameter 1)).2 = true
    · simp only [h2, Bool.not_true, Bool.false_eq_true, if_false] at hok ⊢
      by_cases h3 : (value env s.timeZoneSpec (env.options.getParameter 2)).2 = true
      · simp only [h3, Bool.not_true, Bool.false_eq_true, if_false] at hok ⊢
        exact ⟨{ s with
                 outputFile := env.options.getParameter 0,
                 startTime := (value env s.timeZoneSpec (env.options.getParameter 1)).1,
                 endTime := (value env s.timeZoneSpec (env.options.getParameter 2)).1 },
               rfl, rfl⟩
      · simp [h3, usage] at hok
    · simp [h2, usage] at hok

theorem initialiseFixed_pvDataList (options : QEOptions) (s : RadControl) :
    (initialiseFixed options s).1.pvDataList = s.pvDataList := by
  unfold initialiseFixed
  split
  · simp only
    split <;> rfl
  · rfl

/-- A successful setup ends in the channel part, entered with the channel table untouched. -/
theorem initialise_eq_channels (env : Environment) (s : RadControl)
    (hok : (initialise env s).state = States.initialWait) :
    ∃ t : RadControl, t.pvDataList = s.pvDataList
      ∧ initialise env s = initialiseChannels env.options t := by
  unfold initialise at hok ⊢
  by_cases hhelp : env.options.help = true
  · simp [hhelp] at hok
  · simp only [hhelp, Bool.false_eq_true, if_false] at hok ⊢
    by_cases h2 : (initialiseFixed env.options
        (initialiseFlags env.options { s with state := States.errorExit })).2 = true
    · simp only [h2, if_true] at hok ⊢
      obtain ⟨t, ht, hpar⟩ := initialiseParameters_channels env _ hok
      refine ⟨t, ?_, hpar⟩
      rw [ht, initialiseFixed_pvDataList]
      rfl
    · rcases initialiseFixed_spec env.options
          (initialiseFlags env.options { s with state := States.errorExit }) rfl
        with ⟨h3, hst⟩ | ⟨h3, _⟩ | ⟨h3, _⟩
      · simp only [h3, Bool.false_eq_true, if_false] at hok
        rw [hst] at hok
        exact absurd hok (by decide)
      · exact absurd h3 h2
      · exact absurd h3 h2

/-- What a successful setup leaves in the channel table: from 1 to 20 channels; status, counter
and series of channel 0 as they were before; every further configured channel fresh. -/
theorem initialise_channels (env : Environment) (s : RadControl)
    (hok : (initialise env s).state = States.initialWait) :
    1 ≤ (initialise env s).numberPVNames
    ∧ (initialise env s).numberPVNames ≤ (MaximumPVNames : Int)
    ∧ ((initialise env s).pvDataList 0).isOkayStatus = (s.pvDataList 0).isOkayStatus
    ∧ ((initialise env s).pvDataList 0).responseCount = (s.pvDataList 0).responseCount
    ∧ ((initialise env s).pvDataList 0).archiveData = (s.pvDataList 0).archiveData
    ∧ (∀ i : Fin MaximumPVNames, 1 ≤ i.val →
        (i.val : Int) < (initialise env s).numberPVNames →
        Fresh ((initialise env s).pvDataList i)) := by
  obtain ⟨t, ht, heq⟩ := initialise_eq_channels env s hok
  rw [heq] at hok ⊢
  have h := initialiseChannels_channels env.options t hok
  rw [ht] at h
  exact h

/-! ## Runs of the state machine -/

theorem putArchiveData_data (env : Environment) (s : RadControl) :
    (putArchiveData env s).pvDataList = s.pvDataList
    ∧ (putArchiveData env s).numberPVNames = s.numberPVNames := by
  unfold putArchiveData
  split <;> exact ⟨rfl, rfl⟩

/-- A tick never touches the channel table or the number of channels, and it moves the state
along the one path of the machine. -/
theorem tickTimeout_data (env : Environment) (s s2 : RadControl)
    (hsetup : s.state ≠ States.setup) (h : tickTimeout env s = Outcome.ok s2) :
    s2.pvDataList = s.pvDataList ∧ s2.numberPVNames = s.numberPVNames
    ∧ ((s2.state = s.state ∧ s2.pvIndex = s.pvIndex)
      ∨ (s.state = States.initialWait ∧ s2.state = States.waitArchiverReady)
      ∨ (s.state = States.waitArchiverReady ∧ s2.state = States.initialiseRequest)
      ∨ (s.state = States.initialiseRequest ∧ s2.state = States.sendRequest ∧ s2.pvIndex = 0)
      ∨ (s.state = States.sendRequest ∧ s2.state = States.waitResponse
          ∧ s2.pvIndex = s.pvIndex)
      ∨ (s.state = States.printAll ∧ s2.state = States.allDone)) := by
  cases hst : s.state with
  | setup => exact absurd hst hsetup
  | initialWait =>
    simp only [tickTimeout, hst, setTimeout_sixty, Outcome.bind] at h
    split at h
    · injection h with h
      subst h
      exact ⟨rfl, rfl, Or.inr (Or.inl ⟨rfl, rfl⟩)⟩
    · injection h with h
      subst h
      exact ⟨rfl, rfl, Or.inl ⟨rfl, rfl⟩⟩
  | waitArchiverReady =>
    simp only [tickTimeout, hst] at h
    split at h
    · injection h with h
      subst h
      exact ⟨rfl, rfl, Or.inr (Or.inr (Or.inl ⟨rfl, rfl⟩))⟩
    · split at h
      · exact Outcome.noConfusion h
      · injection h with h
        subst h
        exact ⟨rfl, rfl, Or.inl ⟨rfl, rfl⟩⟩
  | initialiseRequest =>
    simp only [tickTimeout, hst] at h
    injection h with h
    subst h
    exact ⟨rfl, rfl, Or.inr (Or.inr (Or.inr (Or.inl ⟨rfl, rfl, rfl⟩)))⟩
  | sendRequest =>
    simp only [tickTimeout, hst] at h
    cases hr : readArchive s with
    | ok r =>
      simp only [hr, Outcome.bind, setTimeout_sixty] at h
      injection h with h
      subst h
      exact ⟨rfl, rfl, Or.inr (Or.inr (Or.inr (Or.inr (Or.inl ⟨rfl, rfl, rfl⟩))))⟩
    | exit code =>
      simp only [hr, Outcome.bind] at h
      exact Outcome.noConfusion h
    | undefined =>
      simp only [hr, Outcome.bind] at h
      exact Outcome.noConfusion h
  | waitResponse =>
    simp only [tickTimeout, hst] at h
    split at h
    · exact Outcome.noConfusion h
    · injection h with h
      subst h
      exact ⟨rfl, rfl, Or.inl ⟨rfl, rfl⟩⟩
  | printAll =>
    simp only [tickTimeout, hst] at h
    injection h with h
    subst h
    exact ⟨(putArchiveData_data env s).1, (putArchiveData_data env s).2,
      Or.inr (Or.inr (Or.inr (Or.inr (Or.inr ⟨rfl, rfl⟩))))⟩
  | allDone =>
    simp only [tickTimeout, hst] at h
    exact Outcome.noConfusion h
  | errorExit =>
    simp only [tickTimeout, hst] at h
    exact Outcome.noConfusion h

/-- What a response leaves: the number of channels as it was; either the same channel with
the page merged into it, or the next channel with only the current one changed; and the state
chosen by the last lines of setArchiveData. -/
theorem receivePage_data (resample : Resampler) (s : RadControl) (i : Fin MaximumPVNames)
    (okay : Bool) (page : QCaDataPointList) :
    (receivePage resample s i okay page).numberPVNames = s.numberPVNames
    ∧ (receivePage resample s i okay page).state
        = (if (receivePage resample s i okay page).pvIndex < s.numberPVNames
           then States.sendRequest else States.printAll)
    ∧ (((receivePage resample s i okay page).pvIndex = s.pvIndex ∧ page ≠ []
          ∧ (receivePage resample s i okay page).pvDataList
              = Function.update s.pvDataList i
                  (mergePage (countResponse (s.pvDataList i)) (workingCopy s.timeZoneSpec page)))
      ∨ ((receivePage resample s i okay page).pvIndex = s.pvIndex + 1
          ∧ ∃ pvData : PVData, (receivePage resample s i okay page).pvDataList
              = Function.update s.pvDataList i pvData)) := by
  unfold receivePage
  simp only [nextRequestState_eq]
  split
  · rename_i hpage
    have hne : page ≠ [] := by
      intro h
      rw [h] at hpage
      simp at hpage
    split
    · exact ⟨rfl, rfl, Or.inl ⟨rfl, hne, rfl⟩⟩
    · exact ⟨rfl, rfl, Or.inr ⟨rfl, _, rfl⟩⟩
  · exact ⟨rfl, rfl, Or.inr ⟨rfl, _, rfl⟩⟩

theorem appendPage_ne_nil (archiveData working : QCaDataPointList) (h : archiveData ≠ []) :
    appendPage archiveData working ≠ [] := by
  unfold appendPage
  simp [h]

/-- Merging a non-empty page keeps the counter in step with the series. -/
theorem mergePage_counterMatches (pvData : PVData) (working : QCaDataPointList)
    (hne : working ≠ []) (h : CounterMatches pvData) :
    CounterMatches (mergePage (countResponse pvData) working) := by
  right
  rcases h with ⟨h0, _⟩ | ⟨h1, hdata⟩
  · simp [mergePage, countResponse, h0, hne]
  · have hnot : ¬ (pvData.responseCount + 1 = 1) := by omega
    simp only [mergePage, countResponse, hnot, if_false]
    exact ⟨by omega, appendPage_ne_nil _ _ hdata⟩

theorem runInvariant_tick (env : Environment) (s s2 : RadControl) (hinv : RunInvariant s)
    (h : tickTimeout env s = Outcome.ok s2) : RunInvariant s2 := by
  obtain ⟨h1, h20, hsetup, hbefore, hduring⟩ := hinv
  obtain ⟨hdata, hnum, hmove⟩ := tickTimeout_data env s s2 hsetup h
  refine ⟨by rw [hnum]; exact h1, by rw [hnum]; exact h20, ?_, ?_, ?_⟩
  · rcases hmove with ⟨hs, _⟩ | ⟨_, hs⟩ | ⟨_, hs⟩ | ⟨_, hs, _⟩ | ⟨_, hs, _⟩ | ⟨_, hs⟩
    · rw [hs]; exact hsetup
    all_goals rw [hs]; decide
  · intro hstate
    rw [hdata, hnum]
    apply hbefore
    rcases hmove with ⟨hs, _⟩ | ⟨h0, hs⟩ | ⟨h0, hs⟩ | ⟨h0, hs, _⟩ | ⟨h0, hs, _⟩ | ⟨h0, hs⟩
    · rw [← hs]; exact hstate
    · exact Or.inl h0
    · exact Or.inr (Or.inl h0)
    · rw [hs] at hstate
      simp at hstate
    · rw [hs] at hstate
      simp at hstate
    · rw [hs] at hstate
      simp at hstate
  · intro hstate
    rw [hdata, hnum]
    rcases hmove with ⟨hs, hidx⟩ | ⟨h0, hs⟩ | ⟨h0, hs⟩ | ⟨h0, hs, hidx⟩ | ⟨h0, hs, hidx⟩
        | ⟨h0, hs⟩
    · rw [hidx]
      apply hduring
      rw [← hs]; exact hstate
    · rw [hs] at hstate
      simp at hstate
    · rw [hs] at hstate
      simp at hstate
    · have hclean := hbefore (Or.inr (Or.inr h0))
      rw [hidx]
      refine ⟨le_refl _, by omega, fun i _ hi => hclean i hi, ?_⟩
      intro i hi
      exact Or.inl (hclean i (by omega))
    · rw [hidx]
      exact hduring (Or.inl h0)
    · rw [hs] at hstate
      simp at hstate

theorem runInvariant_response (resample : Resampler) (s s2 : RadControl) (okay : Bool)
    (page : QCaDataPointList) (hinv : RunInvariant s) (hwait : s.state = States.waitResponse)
    (h : setArchiveData resample s okay page = Outcome.ok s2) : RunInvariant s2 := by
  obtain ⟨h1, h20, _, _, hduring⟩ := hinv
  obtain ⟨hlo, hhi, hafter, hcur⟩ := hduring (Or.inr hwait)
  have hlt : s.pvIndex.toNat < MaximumPVNames := by omega
  have hi : s.pvIndex = ((⟨s.pvIndex.toNat, hlt⟩ : Fin MaximumPVNames).val : Int) := by
    simp only
    omega
  rw [setArchiveData_eq resample s ⟨s.pvIndex.toNat, hlt⟩ hi] at h
  injection h with h
  subst h
  obtain ⟨hnum, hstate, hcase⟩ :=
    receivePage_data resample s ⟨s.pvIndex.toNat, hlt⟩ okay page
  refine ⟨by rw [hnum]; exact h1, by rw [hnum]; exact h20, ?_, ?_, ?_⟩
  · rw [hstate]
    split <;> decide
  · intro hst
    rw [hstate] at hst
    split at hst <;> simp at hst
  · intro hst
    rw [hnum]
    rcases hcase with ⟨hidx, hne, hlist⟩ | ⟨hidx, pvData, hlist⟩
    · rw [hidx, hlist]
      refine ⟨hlo, hhi, ?_, ?_⟩
      · intro i hgt hin
        have hneq : i ≠ ⟨s.pvIndex.toNat, hlt⟩ := by
          intro heq
          rw [heq] at hgt
          simp only at hgt
          omega
        rw [Function.update_noteq hneq]
        exact hafter i hgt hin
      · intro i hieq
        have heq : i = ⟨s.pvIndex.toNat, hlt⟩ := by
          apply Fin.ext
          simp only
          omega
        rw [heq, Function.update_same]
        apply mergePage_counterMatches
        · rw [workingCopy_eq]
          exact hne
        · exact hcur _ hi.symm
    · have hnext : (receivePage resample s ⟨s.pvIndex.toNat, hlt⟩ okay page).pvIndex
          < s.numberPVNames := by
        by_contra hnot
        rw [hstate, if_neg hnot] at hst
        simp at hst
      rw [hidx] at hnext ⊢
      rw [hlist]
      refine ⟨by omega, hnext, ?_, ?_⟩
      · intro i hgt hin
        have hneq : i ≠ ⟨s.pvIndex.toNat, hlt⟩ := by
          intro heq
          rw [heq] at hgt
          simp only at hgt
          omega
        rw [Function.update_noteq hneq]
        exact hafter i (by omega) hin
      · intro i hieq
        have hneq : i ≠ ⟨s.pvIndex.toNat, hlt⟩ := by
          intro heq
          rw [heq] at hieq
          simp only at hieq
          omega
        rw [Function.update_noteq hneq]
        exact Or.inl (hafter i (by omega) (by omega))

theorem runInvariant_reachable (resample : Resampler) (initial s : RadControl)
    (hinit : RunInvariant initial) (h : Reachable resample initial s) : RunInvariant s := by
  induction h with
  | start => exact hinit
  | tick env s s2 _ hstep ih => exact runInvariant_tick env s s2 ih hstep
  | response okay page s s2 _ hwait hstep ih =>
    exact runInvariant_response resample s s2 okay page ih hwait hstep

/-- Setup establishes the invariant when the counter of channel 0 was zero in the storage of
the object. -/
theorem runInvariant_initialise (env : Environment) (memory : RadControl)
    (hzero : (memory.pvDataList 0).responseCount = 0)
    (hok : (initialise env (Rad_Control memory)).state = States.initialWait) :
    RunInvariant (initialise env (Rad_Control memory)) := by
  obtain ⟨h1, h20, _, hcount, hdata, hrest⟩ := initialise_channels env (Rad_Control memory) hok
  refine ⟨h1, h20, by rw [hok]; decide, ?_, ?_⟩
  · intro _ i hi
    by_cases h0 : i.val = 0
    · have hi0 : i = 0 := Fin.ext h0
      rw [hi0, hcount, hdata]
      exact ⟨hzero, rfl⟩
    · exact (hrest i (by omega) hi).2
  · intro hst
    rw [hok] at hst
    simp at hst

theorem readArchive_ok (s : RadControl) (i : Fin MaximumPVNames)
    (hi : s.pvIndex = (i.val : Int))
    (hfit : max (secondsTo s.nextTime s.endTime * (105 / 100)) 60 < 2147483648) :
    ∃ r : ArchiveRequest, readArchive s = Outcome.ok r := by
  rw [readArchive_eq s i hi,
    castInt_of_nonneg _ (le_trans (by norm_num) (le_max_right _ _)) hfit]
  exact ⟨_, rfl⟩

/-- The initial wait ends: the machine gets to waitArchiverReady with 600 ticks to go. -/
theorem reachable_countdown (resample : Resampler) (initial : RadControl) :
    ∀ (n : Nat) (s : RadControl), Reachable resample initial s →
      s.state = States.initialWait → s.timeout ≤ (n : Int) →
      Reachable resample initial
        { s with timeout := 600, state := States.waitArchiverReady } := by
  intro n
  induction n with
  | zero =>
    intro s hreach hstate hle
    have hle1 : s.timeout - 1 ≤ 0 := by
      have : s.timeout ≤ 0 := by exact_mod_cast hle
      omega
    exact Reachable.tick exOneChannel s _ hreach
      ((tickTimeout_timeouts exOneChannel s).2.1 hstate hle1)
  | succ n ih =>
    intro s hreach hstate hle
    by_cases hle1 : s.timeout - 1 ≤ 0
    · exact Reachable.tick exOneChannel s _ hreach
        ((tickTimeout_timeouts exOneChannel s).2.1 hstate hle1)
    · have hstep : tickTimeout exOneChannel s
          = Outcome.ok { s with timeout := s.timeout - 1 } := by
        simp only [tickTimeout, hstate, hle1, if_false]
      have hnext := Reachable.tick exOneChannel s _ hreach hstep
      have hle2 : ({ s with timeout := s.timeout - 1 } : RadControl).timeout ≤ (n : Int) := by
        simp only
        push_cast at hle
        omega
      exact ih { s with timeout := s.timeout - 1 } hnext hstate hle2

/-- After a successful setup the machine gets to wait for the first response of channel 0,
when the first request window fits in an `int`. -/
theorem reachable_waitResponse (resample : Resampler) (initial s : RadControl)
    (hreach : Reachable resample initial s) (hstate : s.state = States.initialWait)
    (hfit : max (secondsTo s.startTime s.endTime * (105 / 100)) 60 < 2147483648) :
    Reachable resample initial
      { s with
        timeout := 600, pvIndex := 0, nextTime := s.startTime,
        state := States.waitResponse } := by
  have h1 := reachable_countdown resample initial s.timeout.toNat s hreach hstate
    (Int.self_le_toNat s.timeout)
  have h2 : Reachable resample initial
      { s with timeout := 600, state := States.initialiseRequest } :=
    Reachable.tick exOneChannel _ _ h1 (by simp [tickTimeout, exOneChannel])
  have h3 : Reachable resample initial
      { s with
        timeout := 600, pvIndex := 0, nextTime := s.startTime,
        state := States.sendRequest } :=
    Reachable.tick exOneChannel _ _ h2 (by simp [tickTimeout])
  obtain ⟨r, hr⟩ := readArchive_ok
    { s with
      timeout := 600, pvIndex := 0, nextTime := s.startTime, state := States.sendRequest }
    0 rfl hfit
  exact Reachable.tick exOneChannel _ _ h3
    ((tickTimeout_timeouts exOneChannel _).2.2 r rfl hr)

/-- The claim of the first-page test, for a run whose setup found the counter of channel 0 at
zero: whenever the machine waits for a response, the current channel is a configured one, its
incremented counter is 1 exactly when its series is empty, and in the other case the index of
the last stored sample is in range. -/
theorem counter_matches_of_zero_counter (resample : Resampler) (env : Environment)
    (memory s : RadControl) (hzero : (memory.pvDataList 0).responseCount = 0)
    (hok : (initialise env (Rad_Control memory)).state = States.initialWait)
    (hreach : Reachable resample (initialise env (Rad_Control memory)) s)
    (hwait : s.state = States.waitResponse) :
    ∃ i : Fin MaximumPVNames, s.pvIndex = (i.val : Int) ∧ (i.val : Int) < s.numberPVNames
      ∧ ((countResponse (s.pvDataList i)).responseCount = 1
          ↔ (s.pvDataList i).archiveData = [])
      ∧ ((countResponse (s.pvDataList i)).responseCount ≠ 1 →
          0 ≤ ((s.pvDataList i).archiveData.length : Int) - 1
          ∧ ((s.pvDataList i).archiveData.length : Int) - 1
              < ((s.pvDataList i).archiveData.length : Int)) := by
  have hinv := runInvariant_reachable resample _ s
    (runInvariant_initialise env memory hzero hok) hreach
  obtain ⟨_, h20, _, _, hduring⟩ := hinv
  obtain ⟨hlo, hhi, _, hcur⟩ := hduring (Or.inr hwait)
  have hlt : s.pvIndex.toNat < MaximumPVNames := by omega
  have hi : s.pvIndex = ((⟨s.pvIndex.toNat, hlt⟩ : Fin MaximumPVNames).val : Int) := by
    simp only
    omega
  refine ⟨⟨s.pvIndex.toNat, hlt⟩, hi, by rw [← hi]; exact hhi, ?_, ?_⟩
  · rcases hcur _ hi.symm with ⟨h0, hnil⟩ | ⟨h1, hne⟩
    · simp [countResponse, h0, hnil]
    · constructor
      · intro h
        simp only [countResponse] at h
        omega
      · intro h
        exact absurd h hne
  · intro hnot
    rcases hcur _ hi.symm with ⟨h0, _⟩ | ⟨_, hne⟩
    · simp [countResponse, h0] at hnot
    · have hpos : 0 < (s.pvDataList ⟨s.pvIndex.toNat, hlt⟩).archiveData.length :=
        List.length_pos.mpr hne
      omega

/-! ## C1: the fold against the merge of the specification -/

/-- C1 (as amended). For a channel whose response counter is zero exactly when its series is
empty, as it is in every run that starts with the counter of channel 0 at zero, and every
successful non-empty page, the series produced by the merge step of setArchiveData is the
specification's merge of the existing series and the page; the call returns, and the series it
leaves stored for the channel is that merge when another page is requested and the
post-processing of that merge when the page completes the channel. What the merge step does
when counter and series disagree is left out here. -/
theorem setArchiveData_stores_specMerge (resample : Resampler) (s : RadControl)
    (i : Fin MaximumPVNames) (incoming : QCaDataPointList)
    (hi : s.pvIndex = (i.val : Int)) (hne : incoming ≠ [])
    (hcount : (s.pvDataList i).responseCount = 0 ↔ (s.pvDataList i).archiveData = []) :
    (mergePage (countResponse (s.pvDataList i)) (workingCopy s.timeZoneSpec incoming)).archiveData
        = specMerge (s.pvDataList i).archiveData incoming
    ∧ ∃ s2 : RadControl, setArchiveData resample s true incoming = Outcome.ok s2
        ∧ ((s2.pvIndex = s.pvIndex
              ∧ (s2.pvDataList i).archiveData = specMerge (s.pvDataList i).archiveData incoming)
          ∨ (s2.pvIndex = s.pvIndex + 1
              ∧ (s2.pvDataList i).archiveData
                  = (postProcess resample s
                      { s.pvDataList i with
                        archiveData := specMerge (s.pvDataList i).archiveData incoming
                      }).archiveData)) := by
  have hmerge : (mergePage (countResponse (s.pvDataList i))
      (workingCopy s.timeZoneSpec incoming)).archiveData
        = specMerge (s.pvDataList i).archiveData incoming := by
    rw [workingCopy_eq]
    exact mergePage_eq_specMerge _ _ hcount
  refine ⟨hmerge, ?_⟩
  rw [setArchiveData_eq resample s i hi]
  refine ⟨_, rfl, ?_⟩
  have hpos := length_pos_cast incoming hne
  unfold receivePage
  simp only [hpos, and_self, if_true]
  split
  · left
    simp [hmerge]
  · right
    simp only [nextRequestState_pvIndex, nextRequestState_pvDataList, Function.update_same,
      true_and]
    exact postProcess_archiveData_congr resample s _ _ hmerge

/-- A fresh channel (no response counted, no sample) of a raw-mode run without fixed sampling
over the window from 0 to 100 receives the page with the samples at 50, 100, 150 and 200. The
page reaches the end of the window, so the channel is completed and post-processed: the series
left stored is the page trimmed to the samples at 50 and 100, not the merge of the
specification, which is the whole page. -/
theorem setArchiveData_stores_trimmed_series :
    storedSeries (setArchiveData exResample (exState (exChannel false 0 []) 1 0 0)
        true [pt 50, pt 100, pt 150, pt 200]) 0 = some [pt 50, pt 100]
    ∧ specMerge ((exState (exChannel false 0 []) 1 0 0).pvDataList 0).archiveData
        [pt 50, pt 100, pt 150, pt 200] = [pt 50, pt 100, pt 150, pt 200]
    ∧ storedSeries (setArchiveData exResample (exState (exChannel false 0 []) 1 0 0)
        true [pt 50, pt 100, pt 150, pt 200]) 0
      ≠ some (specMerge ((exState (exChannel false 0 []) 1 0 0).pvDataList 0).archiveData
          [pt 50, pt 100, pt 150, pt 200]) := by
  decide

/-- What the missing reset of channel 0 can lead to: when the counter of channel 0 starts at -1,
the first page (samples at 3 and 5) leaves the counter at zero with a stored series; the page
with the samples at 5 and 7 is then copied over the series, and the sample at 3 is lost,
whereas the merge of the specification keeps it. -/
theorem setArchiveData_copies_over_series :
    storedSeries (setArchiveData exResample (exState (exChannel true 0 [pt 3, pt 5]) 1 0 5)
        true [pt 5, pt 7]) 0 = some [pt 5, pt 7]
    ∧ specMerge [pt 3, pt 5] [pt 5, pt 7] = [pt 3, pt 5, pt 7]
    ∧ storedSeries (setArchiveData exResample (exState (exChannel true 0 [pt 3, pt 5]) 1 0 5)
        true [pt 5, pt 7]) 0
      ≠ some (specMerge
          ((exState (exChannel true 0 [pt 3, pt 5]) 1 0 5).pvDataList 0).archiveData
          [pt 5, pt 7]) := by
  decide

theorem setArchiveData_stores_specMerge_witness :
    (mergePage (countResponse ((exState (exChannel true 1 [pt 3, pt 5]) 1 0 5).pvDataList 0))
        (workingCopy (exState (exChannel true 1 [pt 3, pt 5]) 1 0 5).timeZoneSpec
          [pt 5, pt 7])).archiveData = [pt 3, pt 5, pt 7] :=
  (setArchiveData_stores_specMerge exResample (exState (exChannel true 1 [pt 3, pt 5]) 1 0 5) 0
    [pt 5, pt 7] rfl (by simp) (by simp [exState, exChannel])).1.trans (by decide)

/-! ## C2: merge monotonicity -/

/-- C2. When the stored series of the current channel and a successful non-empty page are each
strictly increasing in time, the series merged by setArchiveData is strictly increasing: every
sample is strictly earlier than its successor, so no two samples share a timestamp. The call
returns, and the series it leaves stored is strictly increasing as well whenever another page is
requested or the channel is completed without resampling. -/
theorem setArchiveData_merge_strictlyIncreasing (resample : Resampler) (s : RadControl)
    (i : Fin MaximumPVNames) (incoming : QCaDataPointList)
    (hi : s.pvIndex = (i.val : Int)) (hne : incoming ≠ [])
    (hS : StrictlyIncreasing (s.pvDataList i).archiveData)
    (hP : StrictlyIncreasing incoming) :
    StrictlyIncreasing
        (mergePage (countResponse (s.pvDataList i))
          (workingCopy s.timeZoneSpec incoming)).archiveData
    ∧ ((mergePage (countResponse (s.pvDataList i))
          (workingCopy s.timeZoneSpec incoming)).archiveData.map
            (fun p => p.datetime)).Nodup
    ∧ ∃ s2 : RadControl, setArchiveData resample s true incoming = Outcome.ok s2
        ∧ (s2.pvIndex = s.pvIndex ∨ s.useFixedTime = false →
            StrictlyIncreasing (s2.pvDataList i).archiveData) := by
  rw [strictlyIncreasing_iff_pairwise] at hS hP
  have hmerged : (mergePage (countResponse (s.pvDataList i))
      (workingCopy s.timeZoneSpec incoming)).archiveData.Pairwise
        (fun a b : QCaDataPoint => a.datetime < b.datetime) := by
    rw [workingCopy_eq]
    exact mergePage_pairwise _ _ hS hP
  refine ⟨(strictlyIncreasing_iff_pairwise _).mpr hmerged, ?_, ?_⟩
  · rw [List.Nodup, List.pairwise_map]
    exact hmerged.imp (fun hab => ne_of_lt hab)
  · rw [setArchiveData_eq resample s i hi]
    refine ⟨_, rfl, ?_⟩
    have hpos := length_pos_cast incoming hne
    unfold receivePage
    simp only [hpos, and_self, if_true]
    split
    · intro _
      simp only [nextRequestState_pvDataList, Function.update_same]
      exact (strictlyIncreasing_iff_pairwise _).mpr hmerged
    · rintro (hidx | hfixed)
      · simp only [nextRequestState_pvIndex] at hidx
        omega
      · simp only [nextRequestState_pvDataList, Function.update_same]
        rw [strictlyIncreasing_iff_pairwise]
        simp only [postProcess, hfixed, Bool.false_eq_true, if_false]
        exact hmerged.sublist (trimLoop_initial _ _ _).sublist

theorem setArchiveData_merge_strictlyIncreasing_witness :
    StrictlyIncreasing
      (mergePage (countResponse ((exState (exChannel true 1 [pt 3, pt 5]) 1 0 5).pvDataList 0))
        (workingCopy (exState (exChannel true 1 [pt 3, pt 5]) 1 0 5).timeZoneSpec
          [pt 5, pt 7])).archiveData :=
  (setArchiveData_merge_strictlyIncreasing exResample
    (exState (exChannel true 1 [pt 3, pt 5]) 1 0 5) 0 [pt 5, pt 7] rfl (by simp)
    (by decide) (by decide)).1

/-! ## C3: merge idempotence -/

/-- C3. For every series `S` and every time-ordered page `P`, folding `P` a second time changes
nothing: the overlap-removing append of setArchiveData satisfies
`appendPage (appendPage S P) P = appendPage S P`, and the same holds for the whole merge step
(first-response copy included) of a channel with series `S` that has counted no or some
responses. In particular an empty page and a page that lies wholly at or before the last stored
sample leave the series unchanged. -/
theorem merge_idempotent (S P : QCaDataPointList) (hP : TimeOrdered P) :
    appendPage (appendPage S P) P = appendPage S P
    ∧ (∀ pvData : PVData, pvData.archiveData = S → 0 ≤ pvData.responseCount →
        (mergePage (countResponse (mergePage (countResponse pvData) P)) P).archiveData
          = (mergePage (countResponse pvData) P).archiveData)
    ∧ appendPage S [] = S
    ∧ (∀ hne : S ≠ [], (∀ p ∈ P, p.datetime ≤ (S.getLast hne).datetime) →
        appendPage S P = S) :=
  ⟨appendPage_appendPage S P hP,
   fun pvData _ hcount => mergePage_twice pvData P hP hcount,
   appendPage_nil S,
   fun hne h => appendPage_of_overlap S P hne h⟩

theorem merge_idempotent_witness :
    appendPage (appendPage [pt 3, pt 5] [pt 5, pt 7]) [pt 5, pt 7] = [pt 3, pt 5, pt 7] :=
  (merge_idempotent [pt 3, pt 5] [pt 5, pt 7] (by decide)).1.trans (by decide)

/-! ## C7: trim safety -/

/-- C7. In the non-fixed branch postProcess leaves the channel with a prefix of its series; the
loop ends through one of its breaks; a series of at least 2 samples keeps at least 2 samples,
and exactly its first 2 when every sample is at or after endTime; a series of 2 or fewer
samples is unchanged. -/
theorem postProcess_trim_safety (resample : Resampler) (s : RadControl) (pvData : PVData)
    (hraw : s.useFixedTime = false) :
    (postProcess resample s pvData).archiveData <+: pvData.archiveData
    ∧ (2 ≤ pvData.archiveData.length → 2 ≤ (postProcess resample s pvData).archiveData.length)
    ∧ (pvData.archiveData.length ≤ 2 →
        (postProcess resample s pvData).archiveData = pvData.archiveData)
    ∧ (2 ≤ pvData.archiveData.length → (∀ p ∈ pvData.archiveData, s.endTime ≤ p.datetime) →
        (postProcess resample s pvData).archiveData = pvData.archiveData.take 2)
    ∧ ((postProcess resample s pvData).archiveData.length ≤ 2
        ∨ ((postProcess resample s pvData).archiveData.value
            (((postProcess resample s pvData).archiveData.length : Int) - 2)).datetime
              < s.endTime) := by
  have hpost : (postProcess resample s pvData).archiveData
      = trimLoop s.endTime pvData.archiveData.length pvData.archiveData := by
    simp [postProcess, hraw, trimBeyondEnd]
  rw [hpost]
  have hpre := trimLoop_initial s.endTime pvData.archiveData.length pvData.archiveData
  have hexit := trimLoop_exit s.endTime pvData.archiveData.length pvData.archiveData
    (le_refl _)
  refine ⟨hpre, trimLoop_length_ge _ _ _, trimLoop_small _ _ _, ?_, hexit⟩
  intro h2 hall
  have hge := trimLoop_length_ge s.endTime pvData.archiveData.length pvData.archiveData h2
  have hlen : (trimLoop s.endTime pvData.archiveData.length pvData.archiveData).length = 2 := by
    rcases hexit with hle | hlt
    · omega
    · exfalso
      have hmem := value_mem (trimLoop s.endTime pvData.archiveData.length pvData.archiveData)
        (((trimLoop s.endTime pvData.archiveData.length pvData.archiveData).length : Int) - 2)
        (by omega) (by omega)
      have hle := hall _ (hpre.mem hmem)
      exact absurd hlt (not_lt.mpr hle)
  have htake := List.prefix_iff_eq_take.mp hpre
  rw [hlen] at htake
  exact htake

theorem postProcess_trim_safety_witness :
    (postProcess exResample (exState (exChannel true 1 []) 1 0 0)
        (exChannel true 1 [pt 50, pt 100, pt 150, pt 200])).archiveData
      = [pt 50, pt 100] :=
  ((List.prefix_iff_eq_take.mp
    (postProcess_trim_safety exResample (exState (exChannel true 1 []) 1 0 0)
      (exChannel true 1 [pt 50, pt 100, pt 150, pt 200]) rfl).1).trans (by decide))

/-! ## C4: pagination terminates -/

/-- C4. Starting a channel with the cursor at startTime, whatever responses arrive, setArchiveData
advances pvIndex after at least one and at most `endTime - startTime` (in timestamp units)
plus one responses, that is after that many requests for the channel: the count exists for
every fuel from that bound on. The reason is that a response that does not complete the channel
sets nextTime to a strictly larger value that is strictly below endTime. -/
theorem pagination_terminates (resample : Resampler) (s : RadControl) (i : Fin MaximumPVNames)
    (responses : Nat → Bool × QCaDataPointList) (fuel : Nat)
    (hi : s.pvIndex = (i.val : Int)) (hstart : s.nextTime = s.startTime)
    (hfuel : (s.endTime - s.startTime).toNat + 1 ≤ fuel) :
    (∃ n : Nat, pagesUntilAdvance resample responses fuel 0 s = some n
        ∧ 1 ≤ n ∧ n ≤ (s.endTime - s.startTime).toNat + 1)
    ∧ (∀ (t t2 : RadControl) (okay : Bool) (page : QCaDataPointList),
        t.pvIndex = (i.val : Int) → setArchiveData resample t okay page = Outcome.ok t2 →
        t2.pvIndex = t.pvIndex → t.nextTime < t2.nextTime ∧ t2.nextTime < t.endTime) := by
  constructor
  · have hmax : max 1 (s.endTime - s.nextTime).toNat ≤ (s.endTime - s.startTime).toNat + 1 := by
      rw [hstart]
      apply max_le <;> omega
    obtain ⟨n, hn, hlo, hhi⟩ :=
      pagesUntilAdvance_bound resample responses i fuel 0 s hi (le_trans hmax hfuel)
    exact ⟨n, hn, by omega, by omega⟩
  · intro t t2 okay page hti ht2 hsame
    obtain ⟨t3, ht3, _, _, hcase⟩ := setArchiveData_step resample t i hti okay page
    rw [ht3] at ht2
    injection ht2 with ht2
    subst ht2
    rcases hcase with hadv | ⟨_, h1, h2⟩
    · omega
    · exact ⟨h1, h2⟩

theorem pagination_terminates_witness :
    ∃ n : Nat,
      pagesUntilAdvance exResample (fun _ => (true, [pt 50])) 101 0
        (exState (exChannel false 0 []) 1 0 0) = some n
      ∧ 1 ≤ n
      ∧ n ≤ ((exState (exChannel false 0 []) 1 0 0).endTime
              - (exState (exChannel false 0 []) 1 0 0).startTime).toNat + 1 :=
  (pagination_terminates exResample (exState (exChannel false 0 []) 1 0 0) 0
    (fun _ => (true, [pt 50])) 101 rfl rfl (by decide)).1

/-! ## C5: the continuation decision -/

/-- C5. After a successful non-empty page for a configured channel has been merged,
setArchiveData returns, and it requests another page for the same channel (nextTime set to the
last timestamp of the merged series, pvIndex unchanged, state sendRequest, the merged channel
stored) exactly when the mode is raw and that last timestamp is strictly before endTime and
strictly after the cursor; in every other case the channel is stored post-processed, pvIndex is
incremented and the cursor is reset to startTime. The last timestamp is read as
`value (count - 1)`, the last sample of the merged series. -/
theorem setArchiveData_continuation (resample : Resampler) (s : RadControl)
    (i : Fin MaximumPVNames) (incoming : QCaDataPointList)
    (hi : s.pvIndex = (i.val : Int)) (hcur : s.pvIndex < s.numberPVNames)
    (hne : incoming ≠ []) :
    (∀ hm : (mergePage (countResponse (s.pvDataList i))
          (workingCopy s.timeZoneSpec incoming)).archiveData ≠ [],
        (mergePage (countResponse (s.pvDataList i))
          (workingCopy s.timeZoneSpec incoming)).archiveData.value
            (((mergePage (countResponse (s.pvDataList i))
              (workingCopy s.timeZoneSpec incoming)).archiveData.length : Int) - 1)
          = (mergePage (countResponse (s.pvDataList i))
              (workingCopy s.timeZoneSpec incoming)).archiveData.getLast hm)
    ∧ ∃ (s2 : RadControl) (lastTime : QCaDateTime),
        setArchiveData resample s true incoming = Outcome.ok s2
        ∧ lastTime = ((mergePage (countResponse (s.pvDataList i))
            (workingCopy s.timeZoneSpec incoming)).archiveData.value
              (((mergePage (countResponse (s.pvDataList i))
                (workingCopy s.timeZoneSpec incoming)).archiveData.length : Int) - 1)).datetime
        ∧ ((s2.nextTime = lastTime ∧ s2.pvIndex = s.pvIndex ∧ s2.state = States.sendRequest
              ∧ s2.pvDataList = Function.update s.pvDataList i
                  (mergePage (countResponse (s.pvDataList i))
                    (workingCopy s.timeZoneSpec incoming)))
            ↔ (s.how = How.Raw ∧ lastTime < s.endTime ∧ s.nextTime < lastTime))
        ∧ (¬ (s.how = How.Raw ∧ lastTime < s.endTime ∧ s.nextTime < lastTime) →
            s2.pvDataList = Function.update s.pvDataList i
                (postProcess resample s (mergePage (countResponse (s.pvDataList i))
                  (workingCopy s.timeZoneSpec incoming)))
            ∧ s2.pvIndex = s.pvIndex + 1 ∧ s2.nextTime = s.startTime
            ∧ s2.state = (if s.pvIndex + 1 < s.numberPVNames then States.sendRequest
                          else States.printAll)) := by
  refine ⟨fun hm => value_last _ hm, ?_⟩
  rw [setArchiveData_eq resample s i hi]
  refine ⟨_, _, rfl, rfl, ?_⟩
  have hpos := length_pos_cast incoming hne
  unfold receivePage
  simp only [hpos, and_self, if_true, nextRequestState_eq, gt_iff_lt]
  split
  · rename_i hcont
    refine ⟨⟨fun _ => hcont, fun _ => ⟨rfl, rfl, ?_, rfl⟩⟩, fun hnot => absurd hcont hnot⟩
    simp [hcur]
  · rename_i hcont
    refine ⟨⟨fun h => ?_, fun h => absurd h hcont⟩, fun _ => ⟨rfl, rfl, rfl, rfl⟩⟩
    have hidx := h.2.1
    simp only at hidx
    omega

theorem setArchiveData_continuation_witness :
    ∃ (s2 : RadControl) (lastTime : QCaDateTime),
      setArchiveData exResample (exState (exChannel true 1 [pt 3, pt 5]) 1 0 5) true
        [pt 5, pt 7] = Outcome.ok s2
      ∧ lastTime = 7 ∧ s2.nextTime = lastTime ∧ s2.pvIndex = 0
      ∧ s2.state = States.sendRequest := by
  obtain ⟨s2, lastTime, h1, h2, h3, _⟩ :=
    (setArchiveData_continuation exResample (exState (exChannel true 1 [pt 3, pt 5]) 1 0 5) 0
      [pt 5, pt 7] rfl (by decide) (by simp)).2
  have hlast : lastTime = 7 := h2.trans (by decide)
  have hcond : (exState (exChannel true 1 [pt 3, pt 5]) 1 0 5).how = How.Raw
      ∧ lastTime < (exState (exChannel true 1 [pt 3, pt 5]) 1 0 5).endTime
      ∧ (exState (exChannel true 1 [pt 3, pt 5]) 1 0 5).nextTime < lastTime := by
    rw [hlast]
    decide
  obtain ⟨h4, h5, h6, _⟩ := h3.mpr hcond
  exact ⟨s2, lastTime, h1, hlast, h4, h5, h6⟩

/-! ## C6: a failed or empty page -/

/-- C6 (as amended). A response for a channel that has failed or holds no sample does not abort
the run: setArchiveData returns with pvIndex incremented, the cursor reset, and the state
sendRequest when another channel follows and printAll otherwise, never errorExit. The response
is counted, the other channels are untouched, and the status of the channel is left as it was.
So a channel that was not okay remains not okay, and in whatever later state `t` it is still not
okay every row of the table of several channels shows "nil" for it. -/
theorem setArchiveData_failed_page (resample : Resampler) (isDisplayable : QCaDataPoint → Bool)
    (s : RadControl) (i : Fin MaximumPVNames) (okay : Bool) (incoming : QCaDataPointList)
    (hi : s.pvIndex = (i.val : Int)) (hfail : okay = false ∨ incoming = []) :
    (∃ s2 : RadControl, setArchiveData resample s okay incoming = Outcome.ok s2
      ∧ s2.pvIndex = s.pvIndex + 1 ∧ s2.nextTime = s.startTime
      ∧ s2.state = (if s.pvIndex + 1 < s.numberPVNames then States.sendRequest
                    else States.printAll)
      ∧ s2.state ≠ States.errorExit
      ∧ (s2.pvDataList i).isOkayStatus = (s.pvDataList i).isOkayStatus
      ∧ (s2.pvDataList i).responseCount = (s.pvDataList i).responseCount + 1
      ∧ ∀ k : Fin MaximumPVNames, k ≠ i → s2.pvDataList k = s.pvDataList k)
    ∧ (∀ t : RadControl, isDisplayable outputNullPoint = false →
        (i.val : Int) < t.numberPVNames → (t.pvDataList i).isOkayStatus = false →
        ∀ row ∈ putArchiveDataRows isDisplayable t, row.fields[i.val]? = some Field.nil) := by
  refine ⟨?_, fun t hnull hlt hstatus => putArchiveDataRows_nil isDisplayable t i hnull hlt hstatus⟩
  rw [setArchiveData_eq resample s i hi]
  refine ⟨_, rfl, ?_⟩
  have hcond : ¬ (okay = true ∧ ((incoming.length : Int) > 0)) := by
    rcases hfail with h | h
    · simp [h]
    · simp [h]
  unfold receivePage
  simp only [hcond, if_false, nextRequestState_eq]
  refine ⟨trivial, trivial, trivial, ?_, ?_, ?_, ?_⟩
  · split <;> simp
  · simp [postProcess_isOkayStatus, countResponse]
  · simp [postProcess_responseCount, countResponse]
  · intro k hk
    simp [Function.update_noteq hk]

/-- Channel 1 of a raw-mode run of two channels: a first page with one sample is accepted and a
second page is asked for; the second response fails. The run goes on to printAll, but the
channel still has okay status, and its column of the table shows a number in the second row. -/
theorem setArchiveData_failure_keeps_okay :
    ((setArchiveData exResample exTwoChannels true [⟨7, 10, ⟨0, 0⟩⟩]).bind
        (fun s => setArchiveData exResample s false [])).toOption.map
      (fun s => (s.state, (s.pvDataList 1).isOkayStatus,
        (putArchiveDataRows exDisplayable s).map (fun row => row.fields)))
    = some (States.printAll, true,
        [[Field.nil, Field.nil], [Field.nil, Field.number 7]]) := by
  decide

theorem setArchiveData_failed_page_witness :
    ∃ s2 : RadControl, setArchiveData exResample exTwoChannels false [] = Outcome.ok s2
      ∧ s2.state = States.printAll ∧ (s2.pvDataList 1).isOkayStatus = false := by
  obtain ⟨s2, h1, _, _, h4, _, h6, _⟩ :=
    (setArchiveData_failed_page exResample exDisplayable exTwoChannels 1 false [] rfl
      (Or.inl rfl)).1
  exact ⟨s2, h1, h4.trans (by decide), h6.trans (by decide)⟩

/-! ## C9: the request window -/

/-- C9 (as amended). For a configured table index and a window whose padded length fits in an
`int`, readArchive asks for the time from the cursor to the cursor plus a whole number of
seconds: the specification's `max (cursor + (endTime - cursor) * 1.05, cursor + 60 s)` with the
fraction of a second dropped. The end asked for is never after the specification's end and less
than one second before it, and the request is for at least 60 s. -/
theorem readArchive_window (s : RadControl) (i : Fin MaximumPVNames)
    (hi : s.pvIndex = (i.val : Int))
    (hfit : specAdjustedEnd (seconds s.nextTime) (seconds s.endTime) - seconds s.nextTime
              < 2147483648) :
    ∃ r : ArchiveRequest, readArchive s = Outcome.ok r
      ∧ r.t0 = s.nextTime
      ∧ r.t1 = addSecs s.nextTime
          ⌊specAdjustedEnd (seconds s.nextTime) (seconds s.endTime) - seconds s.nextTime⌋
      ∧ seconds r.t1 ≤ specAdjustedEnd (seconds s.nextTime) (seconds s.endTime)
      ∧ specAdjustedEnd (seconds s.nextTime) (seconds s.endTime) < seconds r.t1 + 1
      ∧ seconds s.nextTime + 60 ≤ seconds r.t1
      ∧ r.pvName = (s.pvDataList i).pvName ∧ r.count = 20000 ∧ r.how = s.how := by
  have hsub := specAdjustedEnd_sub (seconds s.nextTime) (seconds s.endTime)
  have hint : max (secondsTo s.nextTime s.endTime * (105 / 100)) 60
      = specAdjustedEnd (seconds s.nextTime) (seconds s.endTime) - seconds s.nextTime := by
    rw [hsub, secondsTo_eq]
  have h60 : (60 : ℚ) ≤ specAdjustedEnd (seconds s.nextTime) (seconds s.endTime)
      - seconds s.nextTime := by
    rw [hsub]
    exact le_max_right _ _
  have hcast := castInt_of_nonneg _ (le_trans (by norm_num) h60) hfit
  rw [readArchive_eq s i hi, hint, hcast]
  refine ⟨_, rfl, rfl, rfl, ?_, ?_, ?_, rfl, rfl, rfl⟩
  · simp only [toUTC, seconds_addSecs]
    have := Int.floor_le
      (specAdjustedEnd (seconds s.nextTime) (seconds s.endTime) - seconds s.nextTime)
    linarith
  · simp only [toUTC, seconds_addSecs]
    have := Int.lt_floor_add_one
      (specAdjustedEnd (seconds s.nextTime) (seconds s.endTime) - seconds s.nextTime)
    linarith
  · simp only [toUTC, seconds_addSecs]
    have hfl : (60 : Int) ≤
        ⌊specAdjustedEnd (seconds s.nextTime) (seconds s.endTime) - seconds s.nextTime⌋ :=
      Int.le_floor.mpr (by exact_mod_cast h60)
    have hq : (60 : ℚ) ≤
        (⌊specAdjustedEnd (seconds s.nextTime) (seconds s.endTime) - seconds s.nextTime⌋ : ℚ) := by
      exact_mod_cast hfl
    linarith

/-- With the cursor at 0 and the end of the window at 70 s, the request ends at 73 s, whereas
the specification's end is 73.5 s. -/
theorem readArchive_drops_fraction :
    (readArchive (exRequestState 70000)).toOption.map (fun r => seconds r.t1) = some 73
    ∧ specAdjustedEnd (seconds (exRequestState 70000).nextTime)
        (seconds (exRequestState 70000).endTime) = 147 / 2
    ∧ (readArchive (exRequestState 70000)).toOption.map (fun r => seconds r.t1)
      ≠ some (specAdjustedEnd (seconds (exRequestState 70000).nextTime)
          (seconds (exRequestState 70000).endTime)) := by
  suffices h : (readArchive (exRequestState 70000)).toOption.map (fun r => seconds r.t1)
        = some 73
      ∧ specAdjustedEnd (seconds (exRequestState 70000).nextTime)
          (seconds (exRequestState 70000).endTime) = 147 / 2 by
    refine ⟨h.1, h.2, ?_⟩
    rw [h.1, h.2]
    norm_num
  have hspec : specAdjustedEnd (seconds (exRequestState 70000).nextTime)
      (seconds (exRequestState 70000).endTime) = 147 / 2 := by
    simp only [specAdjustedEnd, seconds, exRequestState, exState]
    norm_num
  refine ⟨?_, hspec⟩
  have hcast : castInt (max (secondsTo (exRequestState 70000).nextTime
      (exRequestState 70000).endTime * (105 / 100)) 60) = some 73 := by
    have hval : max (secondsTo (exRequestState 70000).nextTime
        (exRequestState 70000).endTime * (105 / 100)) 60 = 147 / 2 := by
      simp only [secondsTo, exRequestState, exState]
      norm_num
    rw [hval, castInt_of_nonneg _ (by norm_num) (by norm_num)]
    congr 1
    rw [Int.floor_eq_iff]
    constructor <;> norm_num
  rw [readArchive_eq (exRequestState 70000) 0 rfl, hcast]
  simp only [Outcome.toOption, Option.map_some', toUTC, seconds_addSecs]
  simp [seconds, exRequestState, exState]

theorem readArchive_window_witness :
    ∃ r : ArchiveRequest, readArchive (exRequestState 70000) = Outcome.ok r
      ∧ r.t0 = (exRequestState 70000).nextTime := by
  have hfit : specAdjustedEnd (seconds (exRequestState 70000).nextTime)
      (seconds (exRequestState 70000).endTime) - seconds (exRequestState 70000).nextTime
        < 2147483648 := by
    simp only [specAdjustedEnd, seconds, exRequestState, exState]
    norm_num
  obtain ⟨r, h1, h2, _⟩ := readArchive_window (exRequestState 70000) 0 rfl hfit
  exact ⟨r, h1, h2⟩

/-! ## C10: timeout ticks -/

/-- C10 (as amended). For every positive delay whose tick count fits in an `int`, setTimeout
returns with the timeout counter set to `max 1 (floor ((1000 * delay + 99) / 100))` and nothing
else changed. That is the specification's `ceil (delay * 1000 / 100)` whenever the delay is a
whole number of milliseconds; for every delay it is the ceiling or one tick less. The 20 s and
60 s timeouts of the state machine are 200 and 600 ticks. -/
theorem setTimeout_ticks (s : RadControl) (delay : ℚ) (hpos : 0 < delay)
    (hfit : (1000 * delay + 99) / 100 < 2147483648) :
    setTimeout s delay
        = Outcome.ok { s with timeout := max 1 ⌊(1000 * delay + 99) / 100⌋ }
    ∧ ((∃ m : Int, 1000 * delay = m) →
        max 1 ⌊(1000 * delay + 99) / 100⌋ = specTicks delay tickInterval)
    ∧ specTicks delay tickInterval - 1 ≤ max 1 ⌊(1000 * delay + 99) / 100⌋
    ∧ max 1 ⌊(1000 * delay + 99) / 100⌋ ≤ specTicks delay tickInterval
    ∧ setTimeout s 20 = Outcome.ok { s with timeout := 200 }
    ∧ setTimeout s 60 = Outcome.ok { s with timeout := 600 }
    ∧ specTicks 20 tickInterval = 200 ∧ specTicks 60 tickInterval = 600
    ∧ (∀ env : Environment, s.state = States.setup →
        tickTimeout env s = Outcome.ok { initialise env s with timeout := 200 })
    ∧ (∀ env : Environment, s.state = States.initialWait → s.timeout - 1 ≤ 0 →
        tickTimeout env s
          = Outcome.ok { s with timeout := 600, state := States.waitArchiverReady })
    ∧ (∀ (env : Environment) (r : ArchiveRequest), s.state = States.sendRequest →
        readArchive s = Outcome.ok r →
        tickTimeout env s
          = Outcome.ok { s with state := States.waitResponse, timeout := 600 }) := by
  have hnonneg : (0 : ℚ) ≤ (1000 * delay + 99) / 100 := by positivity
  have hgen := setTimeout_eq s
  have hceil_pos : 1 ≤ specTicks delay tickInterval := by
    unfold specTicks tickInterval
    have : (0 : ℚ) < delay * 1000 / 100 := by positivity
    have := Int.ceil_pos.mpr this
    omega
  have hfloor_le : ⌊(1000 * delay + 99) / 100⌋ ≤ specTicks delay tickInterval := by
    unfold specTicks tickInterval
    rw [← Int.cast_le (R := ℚ)]
    have h1 := Int.floor_le ((1000 * delay + 99) / 100)
    have h2 := Int.le_ceil (delay * 1000 / 100)
    have h3 : (⌊(1000 * delay + 99) / 100⌋ : ℚ) < (⌈delay * 1000 / 100⌉ : ℚ) + 1 := by
      linarith
    have h4 : ⌊(1000 * delay + 99) / 100⌋ < ⌈delay * 1000 / 100⌉ + 1 := by exact_mod_cast h3
    have h5 : ⌊(1000 * delay + 99) / 100⌋ ≤ ⌈delay * 1000 / 100⌉ := by omega
    exact_mod_cast h5
  have hfloor_ge : specTicks delay tickInterval - 1 ≤ ⌊(1000 * delay + 99) / 100⌋ := by
    unfold specTicks tickInterval
    have h1 := Int.lt_floor_add_one ((1000 * delay + 99) / 100)
    have h2 := Int.ceil_lt_add_one (delay * 1000 / 100)
    have h3 : (⌈delay * 1000 / 100⌉ : ℚ) - 1 < (⌊(1000 * delay + 99) / 100⌋ : ℚ) + 1 := by
      linarith
    have h4 : ⌈delay * 1000 / 100⌉ - 1 < ⌊(1000 * delay + 99) / 100⌋ + 1 := by
      exact_mod_cast h3
    omega
  have h20 : specTicks 20 tickInterval = 200 := by
    unfold specTicks tickInterval
    rw [Int.ceil_eq_iff]
    constructor <;> norm_num
  have h60 : specTicks 60 tickInterval = 600 := by
    unfold specTicks tickInterval
    rw [Int.ceil_eq_iff]
    constructor <;> norm_num
  have hf20 : ⌊((1000 : ℚ) * 20 + 99) / 100⌋ = 200 := by
    rw [Int.floor_eq_iff]
    constructor <;> norm_num
  have hf60 : ⌊((1000 : ℚ) * 60 + 99) / 100⌋ = 600 := by
    rw [Int.floor_eq_iff]
    constructor <;> norm_num
  refine ⟨hgen delay hnonneg hfit, ?_, ?_, ?_, ?_, ?_, h20, h60,
    fun env => (tickTimeout_timeouts env s).1, fun env => (tickTimeout_timeouts env s).2.1,
    fun env => (tickTimeout_timeouts env s).2.2⟩
  · rintro ⟨m, hm⟩
    have hmpos : 0 < m := by
      have : (0 : ℚ) < (m : ℚ) := by rw [← hm]; positivity
      exact_mod_cast this
    have hspec : specTicks delay tickInterval = (m + 99) / 100 := by
      unfold specTicks tickInterval
      have : delay * 1000 / 100 = (m : ℚ) / 100 := by rw [← hm]; ring
      rw [this, ceil_div_hundred]
    have hfl : ⌊(1000 * delay + 99) / 100⌋ = (m + 99) / 100 := by
      rw [hm, floor_add_div_hundred]
    rw [hspec, hfl]
    apply max_eq_right
    omega
  · exact le_trans hfloor_ge (le_max_right _ _)
  · exact max_le hceil_pos hfloor_le
  · have h := hgen 20 (by norm_num) (by norm_num)
    rw [hf20] at h
    exact h
  · have h := hgen 60 (by norm_num) (by norm_num)
    rw [hf60] at h
    exact h

/-- A delay of 0.1001 s gives 1 tick, whereas the specification's ceiling is 2 ticks. -/
theorem setTimeout_below_ceiling :
    (setTimeout (exRequestState 100) (1001 / 10000)).toOption.map (fun s => s.timeout) = some 1
    ∧ specTicks (1001 / 10000) tickInterval = 2
    ∧ (setTimeout (exRequestState 100) (1001 / 10000)).toOption.map (fun s => s.timeout)
      ≠ some (specTicks (1001 / 10000) tickInterval) := by
  suffices h : (setTimeout (exRequestState 100) (1001 / 10000)).toOption.map
        (fun s => s.timeout) = some 1
      ∧ specTicks (1001 / 10000) tickInterval = 2 by
    refine ⟨h.1, h.2, ?_⟩
    rw [h.1, h.2]
    decide
  constructor
  · have hfloor : ⌊((1000 : ℚ) * (1001 / 10000) + 99) / 100⌋ = 1 := by
      rw [Int.floor_eq_iff]
      constructor <;> norm_num
    rw [setTimeout_eq _ _ (by norm_num) (by norm_num), hfloor]
    rfl
  · unfold specTicks tickInterval
    rw [Int.ceil_eq_iff]
    constructor <;> norm_num

theorem setTimeout_ticks_witness :
    setTimeout (exRequestState 100) 20
      = Outcome.ok { exRequestState 100 with timeout := 200 } :=
  (setTimeout_ticks (exRequestState 100) 20 (by norm_num) (by norm_num)).2.2.2.2.1

/-! ## C8: the configuration left by setup -/

/-- C8. When initialise leaves the machine in initialWait: (1) if fixed sampling is in use then
fixedTime is at least 0.25, a requested interval below 0.25 having been replaced by exactly 0.25
and any other requested interval kept; (2) if more than one channel name was supplied, which is
the case exactly when the number of channels is more than one, then fixed sampling is in use,
with fixedTime 1 when no fixed interval was specified. -/
theorem initialise_configuration (env : Environment) (s : RadControl)
    (hok : (initialise env s).state = States.initialWait) :
    ((initialise env s).useFixedTime = true → 1 / 4 ≤ (initialise env s).fixedTime)
    ∧ (∀ v : ℚ, env.options.fixedSpecified = true → env.options.fixedValue = some v →
        (initialise env s).useFixedTime = true
        ∧ (v < 1 / 4 → (initialise env s).fixedTime = 1 / 4)
        ∧ (1 / 4 ≤ v → (initialise env s).fixedTime = v))
    ∧ ((env.options.getParameter 4).isEmpty = false ↔ 1 < (initialise env s).numberPVNames)
    ∧ (1 < (initialise env s).numberPVNames → (initialise env s).useFixedTime = true)
    ∧ (1 < (initialise env s).numberPVNames → env.options.fixedSpecified = false →
        (initialise env s).fixedTime = 1) := by
  obtain ⟨_, huse, hspec, hauto⟩ := initialise_spec env s hok
  refine ⟨?_, ?_, ?_, fun h => huse.mpr (Or.inr h), fun h1 h2 => hauto h2 h1⟩
  · intro hu
    by_cases hs : env.options.fixedSpecified = true
    · rw [hspec hs]
      split
      · exact le_refl _
      · rename_i hlt
        exact not_lt.mp hlt
    · have hs2 : env.options.fixedSpecified = false := by simpa using hs
      rcases huse.mp hu with h | h
      · exact absurd h hs
      · rw [hauto hs2 h]
        norm_num
  · intro v hs hv
    have hget : env.options.getFloat (-99) = v := by simp [QEOptions.getFloat, hv]
    refine ⟨huse.mpr (Or.inl hs), ?_, ?_⟩
    · intro hlt
      rw [hspec hs, hget, if_pos hlt]
    · intro hle
      rw [hspec hs, hget, if_neg (not_lt.mpr hle)]
  · unfold initialise at hok ⊢
    by_cases hhelp : env.options.help = true
    · simp [hhelp] at hok
    · simp only [hhelp, Bool.false_eq_true, if_false] at hok ⊢
      by_cases h2 : (initialiseFixed env.options
          (initialiseFlags env.options { s with state := States.errorExit })).2 = true
      · simp only [h2, if_true] at hok ⊢
        obtain ⟨t, _, _, hpar⟩ := initialiseParameters_spec env _ hok
        rw [hpar] at hok ⊢
        exact (initialiseChannels_count env.options t hok).symm
      · rcases initialiseFixed_spec env.options
            (initialiseFlags env.options { s with state := States.errorExit }) rfl
          with ⟨h3, hst⟩ | ⟨h3, _⟩ | ⟨h3, _⟩
        · simp only [h3, Bool.false_eq_true, if_false] at hok
          rw [hst] at hok
          exact absurd hok (by decide)
        · exact absurd h3 h2
        · exact absurd h3 h2

theorem initialise_configuration_witness :
    (initialise exEnvironment exSetup).useFixedTime = true
    ∧ (initialise exEnvironment exSetup).fixedTime = 1 / 4 :=
  have hok : (initialise exEnvironment exSetup).state = States.initialWait :=
    initialise_initialWait exEnvironment exSetup rfl
      (fun _ => by norm_num [QEOptions.getFloat, exEnvironment])
      (by decide) (fun _ => rfl) (fun _ => rfl) (by decide)
  ⟨((initialise_configuration exEnvironment exSetup hok).2.1 (1 / 10) rfl rfl).1,
   ((initialise_configuration exEnvironment exSetup hok).2.1 (1 / 10) rfl rfl).2.1
     (by norm_num)⟩

/-! ## C11: the shape of the table of several channels -/

/-- C11. For two or more channels and an output file that can be opened, with a framework that
does not display the null point, putArchiveData writes the rows of the table of several
channels, exactly N of them, where N is the largest sample count of the channels with okay
status and 0 when no channel is okay. Row j carries the index j, and its value field of channel
pv is "nil" whenever the channel is not okay or has fewer than j + 1 samples; otherwise the
field comes from the channel's own sample at index j: its value as a number when the sample
can be displayed, and "nil" when it cannot. -/
theorem putArchiveData_table (env : Environment) (isDisplayable : QCaDataPoint → Bool)
    (s : RadControl) (hopen : env.openOkay = true) (hmany : 2 ≤ s.numberPVNames)
    (hnull : isDisplayable outputNullPoint = false) :
    putArchiveDataOutput env isDisplayable s
        = Output.severalChannels (putArchiveDataRows isDisplayable s)
    ∧ ((putArchiveDataRows isDisplayable s).length : Int) = numberOfRows s
    ∧ (∀ pv : Fin MaximumPVNames, (pv.val : Int) < s.numberPVNames →
        (s.pvDataList pv).isOkayStatus = true →
        ((s.pvDataList pv).archiveData.length : Int) ≤ numberOfRows s)
    ∧ (numberOfRows s = 0
        ∨ ∃ pv : Fin MaximumPVNames, (pv.val : Int) < s.numberPVNames
            ∧ (s.pvDataList pv).isOkayStatus = true
            ∧ ((s.pvDataList pv).archiveData.length : Int) = numberOfRows s)
    ∧ ∀ (j : Nat) (hj : j < (putArchiveDataRows isDisplayable s).length)
        (pv : Fin MaximumPVNames), (pv.val : Int) < s.numberPVNames →
        ((putArchiveDataRows isDisplayable s).get ⟨j, hj⟩).index = (j : Int)
        ∧ ((s.pvDataList pv).isOkayStatus = false
              ∨ (s.pvDataList pv).archiveData.length < j + 1 →
            ((putArchiveDataRows isDisplayable s).get ⟨j, hj⟩).fields[pv.val]?
              = some Field.nil)
        ∧ (∀ hlen : j < (s.pvDataList pv).archiveData.length,
            (s.pvDataList pv).isOkayStatus = true →
            ((putArchiveDataRows isDisplayable s).get ⟨j, hj⟩).fields[pv.val]?
              = some (if isDisplayable ((s.pvDataList pv).archiveData.get ⟨j, hlen⟩)
                      then Field.number ((s.pvDataList pv).archiveData.get ⟨j, hlen⟩).value
                      else Field.nil)) := by
  obtain ⟨h0, hbound, hattained⟩ := numberOfRows_spec s
  refine ⟨?_, ?_, hbound, hattained, ?_⟩
  · have hne : ¬ (s.numberPVNames = 1) := by omega
    simp [putArchiveDataOutput, hopen, hne]
  · rw [putArchiveDataRows_length]
    omega
  · intro j hj pv hpv
    rw [putArchiveDataRows_get, putDatumSet_field isDisplayable s _ _ _ pv hpv]
    refine ⟨rfl, ?_, ?_⟩
    · rintro (hstatus | hshort)
      · simp [pointSet, hstatus, hnull]
      · have hnot : ¬ ((j : Int) < ((s.pvDataList pv).archiveData.length : Int)) := by omega
        by_cases hok : (s.pvDataList pv).isOkayStatus = true
        · simp [pointSet, hok, hnot, hnull]
        · simp [pointSet, hok, hnull]
    · intro hlen hok
      have hlt : (j : Int) < ((s.pvDataList pv).archiveData.length : Int) := by omega
      simp only [pointSet, hok, if_true, hlt, value_getElem _ j hlen]

theorem putArchiveData_table_witness :
    ((putArchiveDataRows exDisplayable
        { exTwoChannels with
          pvDataList := fun _ => exChannel true 1 [⟨7, 10, ⟨0, 0⟩⟩] }).length : Int) = 1 :=
  (putArchiveData_table exEnvironment exDisplayable
    { exTwoChannels with pvDataList := fun _ => exChannel true 1 [⟨7, 10, ⟨0, 0⟩⟩] }
    rfl (by decide) (by decide)).2.1.trans (by decide)

/-! ## C12: alignment of several channels -/

/-- C12. With fixed sampling in use and two or more channels, postProcess stores for every
channel, one with an empty series included, what the resampler makes of the channel's series
with one sample put in front whose time is startTime, whose value is 0 and whose severity is
invalid, asked for the interval fixedTime up to endTime; so for a resampler whose grid starts at
the first timestamp of its input, the first sample of every post-processed channel is at
startTime. With exactly one channel the resampler gets the series as it is. Name, status and
response counter of the channel are untouched. -/
theorem postProcess_alignment (resample : Resampler) (s : RadControl) (pvData : PVData)
    (hfixed : s.useFixedTime = true) :
    (2 ≤ s.numberPVNames →
        (postProcess resample s pvData).archiveData
          = resample (⟨0, s.startTime, ⟨0, archSevInvalid⟩⟩ :: pvData.archiveData)
              s.fixedTime s.endTime)
    ∧ (2 ≤ s.numberPVNames → GridStartsAtFirst resample →
        ∀ q ∈ (postProcess resample s pvData).archiveData.head?, q.datetime = s.startTime)
    ∧ (s.numberPVNames = 1 →
        (postProcess resample s pvData).archiveData
          = resample pvData.archiveData s.fixedTime s.endTime)
    ∧ (postProcess resample s pvData).pvName = pvData.pvName
    ∧ (postProcess resample s pvData).isOkayStatus = pvData.isOkayStatus
    ∧ (postProcess resample s pvData).responseCount = pvData.responseCount := by
  have hmany : 2 ≤ s.numberPVNames →
      (postProcess resample s pvData).archiveData
        = resample (⟨0, s.startTime, ⟨0, archSevInvalid⟩⟩ :: pvData.archiveData)
            s.fixedTime s.endTime := by
    intro h2
    have hne : ¬ (s.numberPVNames = 1) := by omega
    simp [postProcess, hfixed, hne]
  refine ⟨hmany, ?_, ?_, postProcess_pvName resample s pvData,
    postProcess_isOkayStatus resample s pvData, postProcess_responseCount resample s pvData⟩
  · intro h2 hgrid q hq
    rw [hmany h2] at hq
    exact hgrid _ _ _ q hq ⟨0, s.startTime, ⟨0, archSevInvalid⟩⟩ (by simp)
  · intro h1
    simp [postProcess, hfixed, h1]

theorem postProcess_alignment_witness :
    (postProcess exResample exTwoChannels (exChannel true 1 [pt 10])).archiveData
      = [⟨0, 0, ⟨0, archSevInvalid⟩⟩, pt 10] :=
  (postProcess_alignment exResample exTwoChannels (exChannel true 1 [pt 10]) rfl).1
    (by decide)

/-! ## C13: the channels before the first request -/

/-- C13, the code at a failing input. The command line names one channel; the storage of the
object held status true and counter 7 for channel 0 when the constructor ran. Setup succeeds
with one channel, and that channel still has status okay and response counter 7 (its series is
empty): initialise resets only the channels after the first, and the constructor sets neither
member. -/
theorem initialise_keeps_channel_zero :
    (initialise exOneChannel (Rad_Control exMemory)).state = States.initialWait
    ∧ (initialise exOneChannel (Rad_Control exMemory)).numberPVNames = 1
    ∧ ((initialise exOneChannel (Rad_Control exMemory)).pvDataList 0).isOkayStatus = true
    ∧ ((initialise exOneChannel (Rad_Control exMemory)).pvDataList 0).responseCount = 7
    ∧ ((initialise exOneChannel (Rad_Control exMemory)).pvDataList 0).archiveData = [] := by
  decide

/-! ## C14: the first-page test -/

/-- C14, the code at a failing input. In the run of the one-channel command line on storage in
which the counter of channel 0 read 7, the machine gets to wait for the first response of
channel 0 with the series empty and the counter still 7. A successful page then makes the
counter 8, not 1, so the page is handled as a subsequent update of an empty series: the last
stored sample is read at index -1. -/
theorem first_page_taken_as_subsequent :
    exStaleStart.state = States.initialWait
    ∧ Reachable exResample exStaleStart exStaleWait
    ∧ exStaleWait.state = States.waitResponse ∧ exStaleWait.pvIndex = 0
    ∧ (exStaleWait.pvDataList 0).archiveData = []
    ∧ (countResponse (exStaleWait.pvDataList 0)).responseCount = 8
    ∧ (mergePage (countResponse (exStaleWait.pvDataList 0))
          (workingCopy exStaleWait.timeZoneSpec [pt 50])).archiveData
        = appendPage [] [pt 50]
    ∧ ((exStaleWait.pvDataList 0).archiveData.length : Int) - 1 = -1 := by
  have hstart : exStaleStart.state = States.initialWait := by decide
  have htimes : exStaleStart.startTime = 0 ∧ exStaleStart.endTime = 0 := by decide
  have hfit : max (secondsTo exStaleStart.startTime exStaleStart.endTime * (105 / 100)) 60
      < 2147483648 := by
    rw [htimes.1, htimes.2]
    norm_num [secondsTo]
  refine ⟨hstart, ?_, by decide, by decide, by decide, by decide, by decide, by decide⟩
  exact reachable_waitResponse exResample exStaleStart exStaleStart Reachable.start hstart hfit

end Rad
